import Mathlib

/-
Verification of the afterglow-engine audio pipeline.

Shallow embedding of src/musiclib/dsp_utils.py, src/musiclib/audio_analyzer.py
and src/musiclib/granular_maker.py.  Audio buffers are lists of rationals
(finite floats; the claims under study exclude NaN and Inf).  Real-valued
library functions that have no rational counterpart (square root, log10,
powers of two, the scipy Hann window, librosa onset detection, librosa
per-frame spectral centroids, librosa resampling) are supplied through a
structure RealLib of interpretation functions, so every theorem quantifying over
RealLib holds in particular for the real interpretations.  The Python int() cast
is modeled by pyInt (truncation toward zero).  numpy randomness is modeled by
an explicit stream of oracle draws: each call of np.random.randint(lo, hi)
consumes one draw q and yields lo + (pyInt q).toNat % (hi - lo), which ranges
exactly over the support of the real distribution.  Python exceptions are
modeled with Except; numpy broadcast errors and range() step errors are
ValueError in Python and are modeled by the valueError constructor.
-/

set_option maxRecDepth 8000

attribute [local semireducible] Rat.mul Rat.add Rat.sub Rat.inv

/-- Python exception kinds raised by the modeled code paths. -/
inductive PyErr : Type
  | valueError
  | silentArtifact
  | zeroDivision
deriving DecidableEq

instance instDecEqExcept {e a : Type} [DecidableEq e] [DecidableEq a] :
    DecidableEq (Except e a) := fun x y =>
  match x, y with
  | .error u, .error v => decidable_of_iff (u = v) (by simp)
  | .error _, .ok _ => isFalse (by simp)
  | .ok _, .error _ => isFalse (by simp)
  | .ok u, .ok v => decidable_of_iff (u = v) (by simp)

/-- Python int() applied to a rational: truncation toward zero (Int division
of the normalized numerator by the denominator rounds toward zero). -/
def pyInt (q : ℚ) : ℤ := q.num / (q.den : ℤ)

/-- numpy mean of a list (sum divided by length; the empty case, NaN in
numpy, is never reached on the paths where the value matters). -/
def meanQ (l : List ℚ) : ℚ := l.sum / (l.length : ℚ)

/-- Peak absolute sample, np.max(np.abs(a)), with 0 for the empty buffer
(numpy raises there; callers under study guard the empty case). -/
def peakAbs (l : List ℚ) : ℚ := l.foldr (fun x m => max |x| m) 0

/-- np.linspace a b n (endpoint included, matching the numpy default). -/
def linspace (a b : ℚ) (n : ℕ) : List ℚ :=
  if n = 0 then []
  else if n = 1 then [a]
  else (List.range n).map (fun k : ℕ => a + (b - a) * (k : ℚ) / ((n : ℚ) - 1))

/-- Python slice a[-n:], including the a[-0:] = a convention. -/
def lastSlice (l : List ℚ) (n : ℕ) : List ℚ :=
  if n = 0 then l else l.drop (l.length - n)

/-- Python slice a[:-n], including the a[:-0] = empty convention. -/
def initSlice (l : List ℚ) (n : ℕ) : List ℚ :=
  if n = 0 then [] else l.take (l.length - n)

/-- Interpretation of the external real-valued and library functions used by
the pipeline.  sqrtQ stands for the real square root, log10Q for log10 on
positive arguments, pow2Q for two to a rational power, hannF for
scipy.signal.windows.hann(n, sym=False), onsetDetect for librosa onset
detection in sample units, centroidFrames for the librosa per-STFT-frame
spectral centroid sequence, resampleF for librosa.resample.  The proof field
hann_length records the library fact that the Hann window of size n has
exactly n entries. -/
structure RealLib : Type where
  sqrtQ : ℚ → ℚ
  log10Q : ℚ → ℚ
  pow2Q : ℚ → ℚ
  hannF : ℕ → List ℚ
  onsetDetect : List ℚ → ℚ → List ℕ
  centroidFrames : List ℚ → ℚ → List ℚ
  resampleF : List ℚ → ℚ → List ℚ
  hann_length : ∀ n, (hannF n).length = n

/-- Floor square root on naturals by bounded search (kernel friendly). -/
def natSqrtF (n : ℕ) : ℕ :=
  (List.range (n + 2)).foldl (fun acc k => if k * k ≤ n then k else acc) 0

/-- Rational floor approximation of the real square root, exact whenever
num * den is a perfect square (all square roots taken on the concrete traces
below are of this kind, so those traces agree with the real library). -/
def ratSqrt (q : ℚ) : ℚ :=
  if q ≤ 0 then 0 else ((natSqrtF (q.num.toNat * q.den) : ℚ) / (q.den : ℚ))

/-- Floor base-10 logarithm on naturals by bounded search (kernel friendly). -/
def natLog10F (n : ℕ) : ℕ := ((List.range 20).filter (fun k => 10 ^ k ≤ n)).length - 1

/-- Integer-valued stand-in for log10; on the concrete traces below no
branch depends on its value beyond what both it and real log10 satisfy. -/
def intLog10 (q : ℚ) : ℚ := (natLog10F q.num.toNat : ℚ) - (natLog10F q.den : ℚ)

/-- Concrete Hann interpretation: the size-3 window is the exact scipy value
hann(3, sym=False) = [0, 3/4, 3/4] (cos(2*pi/3) = -1/2 is rational); other
sizes are only used where the window values are irrelevant. -/
def hannStd (n : ℕ) : List ℚ := if n = 3 then [0, 3/4, 3/4] else List.replicate n 1

theorem hannStd_length (n : ℕ) : (hannStd n).length = n := by
  unfold hannStd
  by_cases h : n = 3
  · subst h; rfl
  · simp [h]

/-- A concrete admissible interpretation of the external functions, used to
instantiate closed statements. -/
def EStd : RealLib :=
  ⟨ratSqrt, intLog10, fun _ => 1, hannStd, fun _ _ => [], fun _ _ => [],
   fun g _ => g, hannStd_length⟩

-- ===========================================================================
-- dsp_utils.normalize_audio
-- ===========================================================================

/-- dsp_utils.normalize_audio.  The dB target of the source is passed here in
linear amplitude: targetLinear stands for 10 ** (target_peak_dbfs / 20),
which is positive, and is at most 1 exactly when target_peak_dbfs <= 0.
The NaN and Inf checks of the source are unrepresentable over rationals.
Output samples are clipped to [-1, 1] with np.clip. -/
def normalizeAudio (sig : List ℚ) (targetLinear : ℚ) : Except PyErr (List ℚ) :=
  if sig.length = 0 then .error .valueError
  else
    let peak := peakAbs sig
    if peak < 1/100000000 then .error .silentArtifact
    else .ok (sig.map (fun x => max (-1) (min 1 (x * (targetLinear / peak)))))

-- ===========================================================================
-- dsp_utils.apply_fade_in / apply_fade_out
-- ===========================================================================

/-- dsp_utils.apply_fade_in: multiply the first fade samples by
np.linspace(0, 1, fade) and keep the rest; a fade longer than the buffer is
clamped to the buffer length. -/
def applyFadeIn (sig : List ℚ) (fadeLength : ℕ) : List ℚ :=
  let f := if sig.length < fadeLength then sig.length else fadeLength
  List.zipWith (fun x y => x * y) (sig.take f) (linspace 0 1 f) ++ sig.drop f

/-- dsp_utils.apply_fade_out: multiply the last fade samples by
np.linspace(1, 0, fade).  With fade = 0 on a non-empty buffer the source
computes audio_out[-0:] *= np.linspace(1, 0, 0), which broadcasts the whole
array against an empty one and raises ValueError; that is the error case. -/
def applyFadeOut (sig : List ℚ) (fadeLength : ℕ) : Except PyErr (List ℚ) :=
  let f := if sig.length < fadeLength then sig.length else fadeLength
  if f = 0 ∧ sig.length ≠ 0 then .error .valueError
  else
    .ok (sig.take (sig.length - f) ++
      List.zipWith (fun x y => x * y) (lastSlice sig f) (linspace 1 0 f))

-- ===========================================================================
-- dsp_utils.find_best_loop_trim / time_domain_crossfade_loop
-- ===========================================================================

/-- Cross-correlation with mode valid: entry k is the inner product of the
length of the kernel starting at offset k, for k = 0 .. len a - len b. -/
def correlateValid (a b : List ℚ) : List ℚ :=
  (List.range (a.length + 1 - b.length)).map (fun k =>
    ((List.range b.length).map (fun j => a.getD (k + j) 0 * b.getD j 0)).sum)

/-- Index of the first occurrence of the maximum (np.argmax). -/
def firstArgmaxAux : List ℚ → ℕ → ℕ → ℚ → ℕ
  | [], _, bi, _ => bi
  | x :: t, i, bi, bv => if bv < x then firstArgmaxAux t (i+1) i x else firstArgmaxAux t (i+1) bi bv

def firstArgmax : List ℚ → ℕ
  | [] => 0
  | x :: t => firstArgmaxAux t 1 0 x

/-- dsp_utils.find_best_loop_trim.  The buffer is taken mono (the source
collapses multi-channel input first).  With fade_length = 0 the reference
slice is empty and the scipy correlation of an empty kernel raises; that is
the error case.  The final result is clamped to at most a quarter of the
buffer length. -/
def findBestLoopTrim (sig : List ℚ) (fadeLength : ℕ) (searchWindow? : Option ℕ) :
    Except PyErr ℕ :=
  let sw0 := searchWindow?.getD (4 * fadeLength)
  let sw := if sig.length < sw0 then sig.length else sw0
  if sw < fadeLength then .ok 0
  else
    let ref0 := sig.take fadeLength
    let refC := ref0.map (fun x => x - meanQ ref0)
    let sr0 := lastSlice sig sw
    let srC := sr0.map (fun x => x - meanQ sr0)
    if refC.isEmpty then .error .valueError
    else
      let corr := correlateValid srC refC
      if corr.isEmpty then .ok 0
      else
        let bestOffset := corr.length - 1 - firstArgmax corr.reverse
        let trim := sr0.length - (bestOffset + fadeLength)
        .ok (min trim (sig.length / 4))

/-- The overlap-add fade tail of time_domain_crossfade_loop, applied to the
(possibly trimmed) buffer: audio_out[-cf:] *= fade_out, audio_out[:cf] *=
fade_in, audio_out[:cf] += audio[-cf:] * fade_out. -/
def crossfadeCore (E : RealLib) (sig : List ℚ) (cf : ℕ) (equalPower : Bool) : List ℚ :=
  let t := linspace 0 1 cf
  let fadeOut := if equalPower then t.map (fun x => E.sqrtQ (1 - x)) else t.map (fun x => 1 - x)
  let fadeIn := if equalPower then t.map E.sqrtQ else t
  let out1 := sig.take (sig.length - cf) ++
    List.zipWith (fun x y => x * y) (lastSlice sig cf) fadeOut
  let out2 := List.zipWith (fun x y => x * y) (out1.take cf) fadeIn ++ out1.drop cf
  List.zipWith (fun x y => x + y) (out2.take cf)
    (List.zipWith (fun x y => x * y) (lastSlice sig cf) fadeOut) ++ out2.drop cf

/-- dsp_utils.time_domain_crossfade_loop.  The crossfade in samples is
int(crossfade_ms * sr / 1000); below one sample the copy is returned, above
half the buffer it is clamped to half.  When the clamp yields zero samples
on a non-empty buffer (one-sample buffers), the in-place numpy fades
broadcast an empty fade onto the whole array and raise. -/
def timeDomainCrossfadeLoop (E : RealLib) (sig : List ℚ) (crossfadeMs sr : ℚ)
    (optimizeLoop equalPower : Bool) : Except PyErr (List ℚ) :=
  let cf0 := pyInt (crossfadeMs * sr / 1000)
  if cf0 < 1 then .ok sig
  else
    let cf := min cf0.toNat (sig.length / 2)
    let trimmed : Except PyErr (List ℚ) :=
      if optimizeLoop then
        let searchLimit := min (sig.length / 2) (max (cf * 4) (pyInt (sr / 2)).toNat)
        match findBestLoopTrim sig cf (some searchLimit) with
        | .error e => .error e
        | .ok trim => .ok (if 0 < trim then initSlice sig trim else sig)
      else .ok sig
    match trimmed with
    | .error e => .error e
    | .ok sig2 =>
      if cf = 0 ∧ sig2.length ≠ 0 then .error .valueError
      else .ok (crossfadeCore E sig2 cf equalPower)

-- ===========================================================================
-- Generic list lemmas for the peak function and slices
-- ===========================================================================

theorem peakAbs_nonneg (l : List ℚ) : 0 ≤ peakAbs l := by
  induction l with
  | nil => simp [peakAbs]
  | cons x t ih => simp only [peakAbs, List.foldr_cons] at *; exact le_trans ih (le_max_right _ _)

theorem abs_le_peakAbs {l : List ℚ} {x : ℚ} (h : x ∈ l) : |x| ≤ peakAbs l := by
  induction l with
  | nil => cases h
  | cons y t ih =>
    simp only [peakAbs, List.foldr_cons]
    rcases List.mem_cons.mp h with h1 | h1
    · subst h1; exact le_max_left _ _
    · exact le_trans (ih h1) (le_max_right _ _)

theorem peakAbs_le {l : List ℚ} {c : ℚ} (hc : 0 ≤ c) (h : ∀ x ∈ l, |x| ≤ c) :
    peakAbs l ≤ c := by
  induction l with
  | nil => simpa [peakAbs]
  | cons y t ih =>
    simp only [peakAbs, List.foldr_cons]
    exact max_le (h y (List.mem_cons_self y t)) (ih (fun x hx => h x (List.mem_cons_of_mem y hx)))

theorem peakAbs_eq_abs_mem {l : List ℚ} (h : l ≠ []) : ∃ x ∈ l, |x| = peakAbs l := by
  induction l with
  | nil => exact absurd rfl h
  | cons y t ih =>
    rcases t with _ | ⟨z, t⟩
    · exact ⟨y, List.mem_singleton_self y, by simp [peakAbs]⟩
    · rcases ih (by simp) with ⟨x, hx, hpx⟩
      simp only [peakAbs, List.foldr_cons] at *
      rcases le_total |y| (peakAbs (z :: t)) with hle | hle
      · refine ⟨x, List.mem_cons_of_mem y hx, ?_⟩
        rw [hpx]
        simp only [peakAbs, List.foldr_cons] at hle ⊢
        exact (max_eq_right hle).symm
      · refine ⟨y, List.mem_cons_self y _, ?_⟩
        simp only [peakAbs, List.foldr_cons] at hle ⊢
        exact (max_eq_left hle).symm

theorem linspace_length (a b : ℚ) (n : ℕ) : (linspace a b n).length = n := by
  unfold linspace
  by_cases h0 : n = 0
  · simp [h0]
  · by_cases h1 : n = 1
    · simp [h0, h1]
    · rw [if_neg h0, if_neg h1]
      simp

theorem lastSlice_length_le (l : List ℚ) (n : ℕ) : (lastSlice l n).length ≤ l.length := by
  unfold lastSlice
  split <;> simp

theorem lastSlice_length (l : List ℚ) (n : ℕ) (h : n ≤ l.length) (h1 : 1 ≤ n) :
    (lastSlice l n).length = n := by
  unfold lastSlice
  rw [if_neg (by omega)]
  simp; omega

theorem initSlice_length_le (l : List ℚ) (n : ℕ) : (initSlice l n).length ≤ l.length := by
  unfold initSlice
  split <;> simp

theorem abs_clip (y : ℚ) : |max (-1) (min 1 y)| = min |y| 1 := by
  rcases le_total 0 y with h | h
  · have h1 : max (-1) (min 1 y) = min 1 y :=
      max_eq_right (le_trans (by norm_num) (le_min zero_le_one h))
    rw [h1, abs_of_nonneg (le_min zero_le_one h), abs_of_nonneg h, min_comm]
  · have h1 : min 1 y = y := min_eq_right (le_trans h zero_le_one)
    rw [h1, abs_of_nonpos (max_le (by norm_num) h), abs_of_nonpos h, ← min_neg_neg,
      neg_neg, min_comm]

/-- C1 (amended): for non-empty buffers (no NaN or Inf representable), a peak
strictly below 1e-8 raises SilentArtifact; a peak strictly above it with a
positive linear target t (t = 10 ** (dbfs / 20), and t <= 1 iff dbfs <= 0)
yields a buffer of the same length whose peak is exactly min t 1 -- the
requested level when the target is at most 0 dBFS, and 1 (from clipping)
when the target is above 0 dBFS -- with every sample in [-1, 1]. -/
theorem normalizeAudio_spec (sig : List ℚ) (t : ℚ) (hne : sig ≠ []) (hpos : 0 < t) :
    (peakAbs sig < 1/100000000 → normalizeAudio sig t = .error .silentArtifact) ∧
    (1/100000000 < peakAbs sig →
      ∃ out, normalizeAudio sig t = .ok out ∧ out.length = sig.length ∧
        peakAbs out = min t 1 ∧ ∀ x ∈ out, -1 ≤ x ∧ x ≤ 1) := by
  have hlen : ¬ sig.length = 0 := by simpa [List.length_eq_zero] using hne
  constructor
  · intro h
    simp [normalizeAudio, hlen, h, -one_div]
  · intro hgt
    have hp : (0:ℚ) < peakAbs sig := lt_trans (by norm_num) hgt
    have hnlt : ¬ peakAbs sig < 1/100000000 := not_lt.mpr (le_of_lt hgt)
    refine ⟨sig.map (fun x => max (-1) (min 1 (x * (t / peakAbs sig)))),
      by simp [normalizeAudio, hlen, hnlt, -one_div], by simp, ?_, ?_⟩
    · have habs : ∀ x : ℚ, |max (-1) (min 1 (x * (t / peakAbs sig)))| =
          min (|x| * (t / peakAbs sig)) 1 := by
        intro x
        rw [abs_clip, abs_mul, abs_of_pos (div_pos hpos hp)]
      have hself : peakAbs sig * (t / peakAbs sig) = t := by
        field_simp
      apply le_antisymm
      · apply peakAbs_le (le_min (le_of_lt hpos) zero_le_one)
        intro y hy
        rcases List.mem_map.mp hy with ⟨x, hx, rfl⟩
        rw [habs]
        refine min_le_min ?_ le_rfl
        calc |x| * (t / peakAbs sig) ≤ peakAbs sig * (t / peakAbs sig) :=
              mul_le_mul_of_nonneg_right (abs_le_peakAbs hx) (le_of_lt (div_pos hpos hp))
          _ = t := hself
      · rcases peakAbs_eq_abs_mem hne with ⟨x, hx, hxe⟩
        have hmem : max (-1) (min 1 (x * (t / peakAbs sig))) ∈
            sig.map (fun x => max (-1) (min 1 (x * (t / peakAbs sig)))) :=
          List.mem_map_of_mem _ hx
        have := abs_le_peakAbs hmem
        rw [habs, hxe, hself] at this
        exact this
    · intro x hx
      rcases List.mem_map.mp hx with ⟨y, _, rfl⟩
      refine ⟨le_max_left _ _, max_le (by norm_num) (min_le_left _ _)⟩

/-- C1 witness: a half-amplitude one-sample buffer normalized to linear
target 1/2 reaches the target peak exactly, and a buffer below the silence
threshold raises SilentArtifact. -/
theorem normalizeAudio_spec_witness :
    (∃ out, normalizeAudio [(1:ℚ)/2] (1/2) = .ok out ∧ out.length = ([(1:ℚ)/2]).length ∧
      peakAbs out = min (1/2) 1 ∧ ∀ x ∈ out, -1 ≤ x ∧ x ≤ 1) ∧
    normalizeAudio [(1:ℚ)/10000000000] (1/2) = .error .silentArtifact :=
  ⟨(normalizeAudio_spec [(1:ℚ)/2] (1/2) (by decide) (by decide)).2 (by decide),
   (normalizeAudio_spec [(1:ℚ)/10000000000] (1/2) (by decide) (by decide)).1 (by decide)⟩

/-- C1 counterexample: with requested target level above 0 dBFS (linear
target 2, that is +6.02 dB), the buffer with peak 1/2 is scaled to peak 2 and
then clipped, so the returned peak is 1 and not the requested target 2: the
claim as stated fails for positive-dB targets. -/
theorem normalizeAudio_counterexample :
    normalizeAudio [(1:ℚ)/2] 2 = .ok [1] ∧ peakAbs [(1:ℚ)] = 1 ∧ (1:ℚ) ≠ 2 := by
  refine ⟨by decide, by decide, by norm_num⟩

theorem getD_drop_q (l : List ℚ) (m j : ℕ) : (l.drop m).getD j 0 = l.getD (m + j) 0 := by
  rw [List.getD_eq_getElem?_getD, List.getD_eq_getElem?_getD, List.getElem?_drop]

theorem getD_take_q (l : List ℚ) (m j : ℕ) (h : j < m) : (l.take m).getD j 0 = l.getD j 0 := by
  rw [List.getD_eq_getElem?_getD, List.getD_eq_getElem?_getD, List.getElem?_take, if_pos h]

theorem lastSlice_self (l : List ℚ) : lastSlice l l.length = l := by
  unfold lastSlice
  split
  · rfl
  · simp

/-- C10 (amended): apply_fade_in keeps the buffer length, leaves every index
at or beyond the fade unchanged, and clamps an oversized fade; apply_fade_out
with a positive fade (or on the empty buffer) returns a buffer of the same
length leaving every index before length minus the clamped fade unchanged,
and likewise clamps oversized fades; but apply_fade_out with fade_length 0 on
a non-empty buffer raises a broadcast ValueError instead of returning.  Both
functions operate on a copy in the source; the embedding is pure, so
non-mutation holds by construction. -/
theorem applyFade_spec (sig : List ℚ) (n : ℕ) :
    (applyFadeIn sig n).length = sig.length ∧
    (∀ i, n ≤ i → (applyFadeIn sig n).getD i 0 = sig.getD i 0) ∧
    (1 ≤ n ∨ sig = [] →
      ∃ out, applyFadeOut sig n = .ok out ∧ out.length = sig.length ∧
        ∀ i, i + min n sig.length < sig.length → out.getD i 0 = sig.getD i 0) ∧
    (n = 0 → sig ≠ [] → applyFadeOut sig n = .error .valueError) := by
  refine ⟨?_, ?_, ?_, ?_⟩
  · by_cases hc : sig.length < n
    · simp [applyFadeIn, if_pos hc, linspace_length]
    · simp only [applyFadeIn, if_neg hc, List.length_append, List.length_zipWith,
        List.length_take, List.length_drop, linspace_length]
      push_neg at hc
      omega
  · intro i hi
    by_cases hc : sig.length < n
    · have hfirst : (List.zipWith (fun x y => x * y) (sig.take sig.length)
          (linspace 0 1 sig.length)).length = sig.length := by
        simp [linspace_length]
      simp only [applyFadeIn, if_pos hc]
      rw [List.getD_eq_getElem?_getD, List.getElem?_append_right (by rw [hfirst]; omega),
        ← List.getD_eq_getElem?_getD, hfirst, List.drop_length]
      rw [List.getD_eq_default _ _ (by simp), List.getD_eq_default _ _ (by omega)]
    · push_neg at hc
      have hfirst : (List.zipWith (fun x y => x * y) (sig.take n)
          (linspace 0 1 n)).length = n := by
        simp [linspace_length]; omega
      simp only [applyFadeIn, if_neg (not_lt.mpr hc)]
      rw [List.getD_eq_getElem?_getD, List.getElem?_append_right (by rw [hfirst]; omega),
        ← List.getD_eq_getElem?_getD, hfirst, getD_drop_q]
      congr 1
      omega
  · intro h
    by_cases hc : sig.length < n
    · refine ⟨List.zipWith (fun x y => x * y) sig (linspace 1 0 sig.length), ?_, ?_, ?_⟩
      · simp only [applyFadeOut, if_pos hc]
        rw [if_neg (by tauto)]
        rw [Nat.sub_self, List.take_zero, List.nil_append, lastSlice_self]
      · simp [linspace_length]
      · intro i hi
        rw [min_eq_right (le_of_lt hc)] at hi
        omega
    · push_neg at hc
      rcases Nat.eq_zero_or_pos n with hn | hn
      · subst hn
        have hsig : sig = [] := by
          rcases h with h | h
          · omega
          · exact h
        subst hsig
        exact ⟨[], by decide, rfl, by intro i hi; simp at hi⟩
      · have hlast : (lastSlice sig n).length = n := lastSlice_length sig n hc hn
        refine ⟨sig.take (sig.length - n) ++
            List.zipWith (fun x y => x * y) (lastSlice sig n) (linspace 1 0 n), ?_, ?_, ?_⟩
        · simp only [applyFadeOut, if_neg (not_lt.mpr hc)]
          rw [if_neg (show ¬ (n = 0 ∧ sig.length ≠ 0) by omega)]
        · simp only [List.length_append, List.length_zipWith, List.length_take,
            List.length_drop, linspace_length, hlast]
          omega
        · intro i hi
          rw [min_eq_left hc] at hi
          rw [List.getD_eq_getElem?_getD, List.getElem?_append,
            if_pos (show i < (List.take (sig.length - n) sig).length by
              simp [List.length_take]; omega),
            ← List.getD_eq_getElem?_getD, getD_take_q _ _ _ (by omega)]
  · intro hn hsig
    subst hn
    have hlen2 : sig.length ≠ 0 := by simpa [List.length_eq_zero] using hsig
    simp only [applyFadeOut]
    rw [if_neg (show ¬ sig.length < 0 by omega)]
    rw [if_pos (show (0:ℕ) = 0 ∧ sig.length ≠ 0 from ⟨rfl, hlen2⟩)]

/-- C10 witness: on a three-sample buffer with fade 2, fade-in leaves index 2
unchanged and fade-out leaves index 0 unchanged. -/
theorem applyFade_spec_witness :
    (applyFadeIn [(2:ℚ), 3, 4] 2).getD 2 0 = ([(2:ℚ), 3, 4]).getD 2 0 ∧
    (∃ out, applyFadeOut [(2:ℚ), 3, 4] 2 = .ok out ∧ out.length = 3 ∧
      ∀ i, i + min 2 ([(2:ℚ), 3, 4]).length < 3 → out.getD i 0 = ([(2:ℚ), 3, 4]).getD i 0) :=
  ⟨(applyFade_spec [(2:ℚ), 3, 4] 2).2.1 2 (by norm_num),
   (applyFade_spec [(2:ℚ), 3, 4] 2).2.2.1 (Or.inl (by norm_num))⟩

/-- C10 counterexample: apply_fade_out with fade_length 0 on a non-empty
buffer raises a broadcast ValueError (audio_out[-0:] is the whole array and
the fade curve is empty), instead of returning the buffer unchanged as the
claim requires. -/
theorem applyFadeOut_counterexample :
    applyFadeOut [(1:ℚ), 1] 0 = .error .valueError := by decide

/-- C3 (amended): whenever time_domain_crossfade_loop with optimize_loop on
returns at all, the result is no longer than the input, and
find_best_loop_trim with a positive fade length never trims more than one
quarter of the buffer (the final clamp min(trim, len // 4)); a one-sample
buffer with a requested crossfade of at least one sample raises instead of
returning, because the crossfade clamps to zero samples. -/
theorem crossfadeLoop_length_trim_spec :
    (∀ (E : RealLib) (sig : List ℚ) (ms sr : ℚ) (eqp : Bool) (out : List ℚ),
      timeDomainCrossfadeLoop E sig ms sr true eqp = .ok out →
      out.length ≤ sig.length) ∧
    (∀ (sig : List ℚ) (f : ℕ) (sw : Option ℕ) (t : ℕ), 1 ≤ f →
      findBestLoopTrim sig f sw = .ok t → 4 * t ≤ sig.length) := by
  constructor
  · intro E sig ms sr eqp out h
    have hcore : ∀ (s2 : List ℚ) (cf : ℕ),
        (crossfadeCore E s2 cf eqp).length ≤ s2.length := by
      intro s2 cf
      have h1 := lastSlice_length_le s2 cf
      cases eqp <;>
        simp only [crossfadeCore, Bool.false_eq_true, reduceIte, if_false,
          List.length_append, List.length_zipWith, List.length_take,
          List.length_drop, List.length_map, linspace_length] <;>
        omega
    simp only [timeDomainCrossfadeLoop, reduceIte] at h
    split at h
    · exact le_of_eq (by injection h with h; rw [← h])
    · split at h
      · exact absurd h (by simp)
      · rename_i sig2 heq
        split at h
        · exact absurd h (by simp)
        · injection h with h
          have hlen2 : sig2.length ≤ sig.length := by
            split at heq
            · exact absurd heq (by simp)
            · injection heq with heq
              rw [← heq]
              split
              · exact initSlice_length_le _ _
              · exact le_rfl
          rw [← h]
          exact le_trans (hcore sig2 _) hlen2
  · intro sig f sw t hfp h
    simp only [findBestLoopTrim] at h
    repeat' split at h
    all_goals first
      | (injection h with h; omega)
      | exact absurd h (by simp)

/-- C3 witness: a four-sample buffer with a one-sample crossfade returns a
buffer of at most the input length, and the trim is at most a quarter. -/
theorem crossfadeLoop_witness :
    timeDomainCrossfadeLoop EStd [1, 2, 3, 4] 1000 1 true true = .ok [4, 2, 3, 4] ∧
    ([4, 2, 3, 4] : List ℚ).length ≤ ([1, 2, 3, 4] : List ℚ).length ∧
    findBestLoopTrim [(1:ℚ), 2, 3, 4] 1 (some 4) = .ok 0 ∧
    4 * 0 ≤ ([(1:ℚ), 2, 3, 4]).length :=
  ⟨by decide,
   crossfadeLoop_length_trim_spec.1 EStd [1, 2, 3, 4] 1000 1 true [4, 2, 3, 4] (by decide),
   by decide,
   crossfadeLoop_length_trim_spec.2 [(1:ℚ), 2, 3, 4] 1 (some 4) 0 (by norm_num) (by decide)⟩

/-- C3 counterexample: on the one-sample buffer with a requested one-sample
crossfade, the function raises (the crossfade clamps to zero and the empty
correlation kernel and empty fade fail) instead of returning a buffer, so
the claim as stated fails on one-sample inputs. -/
theorem crossfadeLoop_counterexample :
    (timeDomainCrossfadeLoop EStd [5] 1000 1 true true).isOk = false := by decide

-- ===========================================================================
-- audio_analyzer.AudioAnalyzer
-- ===========================================================================

/-- Gate parameters of get_stable_regions and get_sorted_windows (the source
defaults are onset rate 3/s, RMS in [-40, -10] dB, DC below 0.1, crest below
10, and no centroid bounds; the verbose flag only logs and is dropped). -/
structure GateParams : Type where
  maxOnsetRate : ℚ
  rmsLowDb : ℚ
  rmsHighDb : ℚ
  maxDcOffset : ℚ
  maxCrest : ℚ
  centroidLowHz : Option ℚ
  centroidHighHz : Option ℚ
deriving DecidableEq

/-- The source default gate parameters. -/
def defaultGates : GateParams := ⟨3, -40, -10, 1/10, 10, none, none⟩

/-- The cache key of get_stable_regions: the full gate tuple together with
window_size_sec and hop_sec (the source tuple lists the gate fields first
and the two window fields last). -/
abbrev GateKey : Type := GateParams × ℚ × ℚ

/-- audio_analyzer.AudioAnalyzer state: the buffer (field sig, the audio
array of the source), the construction parameters, the derived window and
hop sizes in samples, and the stability-mask cache dictionary (modeled as an
association list, most recent entry first). -/
structure AudioAnalyzer : Type where
  sig : List ℚ
  sr : ℚ
  windowSizeSec : ℚ
  hopSec : ℚ
  windowSizeSamples : ℕ
  hopSamples : ℕ
  stabilityCache : List (GateKey × List Bool)
deriving DecidableEq

/-- AudioAnalyzer.__init__: rejects sr <= 0, window_size_sec <= 0 and
hop_sec < 0 (hop_sec = 0 passes); converts seconds to samples with int();
when the window exceeds the buffer, clamps both window and hop to the buffer
length. -/
def analyzerInit (sig : List ℚ) (sr windowSizeSec hopSec : ℚ) :
    Except PyErr AudioAnalyzer :=
  if sr ≤ 0 then .error .valueError
  else if windowSizeSec ≤ 0 then .error .valueError
  else if hopSec < 0 then .error .valueError
  else
    let w0 := (pyInt (windowSizeSec * sr)).toNat
    let h0 := (pyInt (hopSec * sr)).toNat
    if sig.length < w0 then .ok ⟨sig, sr, windowSizeSec, hopSec, sig.length, sig.length, []⟩
    else .ok ⟨sig, sr, windowSizeSec, hopSec, w0, h0, []⟩

/-- Python range(0, stop, step) over naturals with an integer stop (empty
when the stop is not positive; the step-zero ValueError of Python is modeled
separately where the source reaches it). -/
def pyRangeNat (stop : ℤ) (step : ℕ) : List ℕ :=
  if step = 0 then []
  else (List.range ((stop.toNat + step - 1) / step)).map (fun k => k * step)

/-- The window start offsets range(0, len(audio) - window + 1, hop) shared
by every windowed metric of the analyzer. -/
def windowStarts (a : AudioAnalyzer) : List ℕ :=
  pyRangeNat ((a.sig.length : ℤ) - (a.windowSizeSamples : ℤ) + 1) a.hopSamples

/-- The number of analysis windows. -/
def numWindows (a : AudioAnalyzer) : ℕ := (windowStarts a).length

/-- The window slice audio[start : start + window_size_samples]. -/
def windowSeg (a : AudioAnalyzer) (s : ℕ) : List ℚ :=
  (a.sig.drop s).take a.windowSizeSamples

/-- dsp_utils.rms_energy: sqrt of the mean square. -/
def rmsEnergy (E : RealLib) (l : List ℚ) : ℚ := E.sqrtQ (meanQ (l.map (fun x => x * x)))

/-- dsp_utils.linear_to_db: min_db on non-positive input, else 20 * log10. -/
def linearToDb (E : RealLib) (x minDb : ℚ) : ℚ := if x ≤ 0 then minDb else 20 * E.log10Q x

/-- dsp_utils.rms_energy_db with the default floor of -80 dB. -/
def rmsEnergyDb (E : RealLib) (l : List ℚ) : ℚ := linearToDb E (rmsEnergy E l) (-80)

/-- AudioAnalyzer._compute_rms_curve (pure value; the windowed loop, with
the [-80.0] fallback for an empty list of values). -/
def rmsCurve (E : RealLib) (a : AudioAnalyzer) : List ℚ :=
  let vals := (windowStarts a).map (fun s => rmsEnergyDb E (windowSeg a s))
  if vals.isEmpty then [-80] else vals

/-- AudioAnalyzer._compute_rms_curve including the Python range() error:
with hop_samples = 0 the loop raises ValueError (zero step) before
producing any value. -/
def computeRmsCurveE (E : RealLib) (a : AudioAnalyzer) : Except PyErr (List ℚ) :=
  if a.hopSamples = 0 then .error .valueError else .ok (rmsCurve E a)

/-- AudioAnalyzer._compute_dc_offset: absolute mean per window, fallback
[0.0]. -/
def dcCurve (a : AudioAnalyzer) : List ℚ :=
  let vals := (windowStarts a).map (fun s => |meanQ (windowSeg a s)|)
  if vals.isEmpty then [0] else vals

/-- AudioAnalyzer._compute_crest_factor: peak over RMS with a 1e-10 guard,
fallback [1.0]. -/
def crestCurve (E : RealLib) (a : AudioAnalyzer) : List ℚ :=
  let vals := (windowStarts a).map (fun s =>
    let seg := windowSeg a s
    let peak := peakAbs seg
    let rms := rmsEnergy E seg
    if 1/10000000000 < rms then peak / rms else 0)
  if vals.isEmpty then [1] else vals

/-- The onset sample positions of _compute_onset_density (librosa onset
detection, an external function carried by RealLib; the try-except fallback
returns the empty array and raises nothing). -/
def onsetList (E : RealLib) (a : AudioAnalyzer) : List ℕ := E.onsetDetect a.sig a.sr

/-- Onsets falling inside the window starting at s:
np.sum((onset_frames >= start) and (onset_frames < end)). -/
def onsetCountAt (E : RealLib) (a : AudioAnalyzer) (s : ℕ) : ℕ :=
  ((onsetList E a).filter (fun o => decide (s ≤ o) && decide (o < s + a.windowSizeSamples))).length

/-- AudioAnalyzer._compute_spectral_centroid: per-analysis-window average of
the librosa per-STFT-frame centroids (frame hop 512), with the 2000 Hz
fallbacks of the source; exceptions are caught in the source. -/
def centroidCurve (E : RealLib) (a : AudioAnalyzer) : List ℚ :=
  let frames := E.centroidFrames a.sig a.sr
  let vals := (windowStarts a).map (fun s =>
    let e := s + a.windowSizeSamples
    let sf := s / 512
    let ef := e / 512
    if sf < ef ∧ ef ≤ frames.length then meanQ ((frames.drop sf).take (ef - sf))
    else if sf < frames.length then meanQ (frames.drop sf)
    else 2000)
  if vals.isEmpty then [2000] else vals

/-- The stability mask computation of get_stable_regions: the conjunction of
the RMS band, DC, crest and optional centroid gates over each window, then
the onset-rate rejection loop over the same window starts. -/
def computeStableMask (E : RealLib) (a : AudioAnalyzer) (g : GateParams) : List Bool :=
  let rms := rmsCurve E a
  let dc := dcCurve a
  let crest := crestCurve E a
  let m1 := rms.map (fun r => decide (g.rmsLowDb ≤ r) && decide (r ≤ g.rmsHighDb))
  let m2 := List.zipWith and m1 (dc.map (fun v => decide (v < g.maxDcOffset)))
  let m3 := List.zipWith and m2 (crest.map (fun c => decide (c < g.maxCrest)))
  let m4 :=
    if g.centroidLowHz.isSome ∨ g.centroidHighHz.isSome then
      let cen := centroidCurve E a
      let m4a := match g.centroidLowHz with
        | some lo => List.zipWith and m3 (cen.map (fun c => decide (lo ≤ c)))
        | none => m3
      match g.centroidHighHz with
        | some hi => List.zipWith and m4a (cen.map (fun c => decide (c ≤ hi)))
        | none => m4a
    else m3
  m4.mapIdx (fun i b =>
    match (windowStarts a).get? i with
    | some s =>
      let rate := (onsetCountAt E a s : ℚ) / ((a.windowSizeSamples : ℚ) / a.sr)
      b && !(decide (g.maxOnsetRate < rate))
    | none => b)

/-- The cache key tuple of get_stable_regions. -/
def gateKey (a : AudioAnalyzer) (g : GateParams) : GateKey := (g, a.windowSizeSec, a.hopSec)

/-- AudioAnalyzer.get_stable_regions: look the key up in the cache and
return the cached mask unchanged, else compute the mask, store it under the
key and return it with the updated analyzer. -/
def getStableRegions (E : RealLib) (a : AudioAnalyzer) (g : GateParams) :
    List Bool × AudioAnalyzer :=
  let key := gateKey a g
  match (a.stabilityCache.find? (fun kv => decide (kv.1 = key))).map Prod.snd with
  | some m => (m, a)
  | none =>
    let m := computeStableMask E a g
    (m, ⟨a.sig, a.sr, a.windowSizeSec, a.hopSec, a.windowSizeSamples, a.hopSamples,
      (key, m) :: a.stabilityCache⟩)

/-- The per-window keep predicate of get_sorted_windows: the same RMS band,
DC, crest and optional centroid gates, phrased over the window index. -/
def rawKeep (E : RealLib) (a : AudioAnalyzer) (g : GateParams) (i : ℕ) : Bool :=
  let rms := (rmsCurve E a).getD i 0
  let dc := (dcCurve a).getD i 0
  let crest := (crestCurve E a).getD i 0
  let cenLowOk := match g.centroidLowHz with
    | some lo => decide (lo ≤ (centroidCurve E a).getD i 0)
    | none => true
  let cenHighOk := match g.centroidHighHz with
    | some hi => decide ((centroidCurve E a).getD i 0 ≤ hi)
    | none => true
  decide (g.rmsLowDb ≤ rms) && decide (rms ≤ g.rmsHighDb) &&
    decide (dc < g.maxDcOffset) && decide (crest < g.maxCrest) && cenLowOk && cenHighOk

/-- Onset count of window i (zero outside the range, never reached on the
indices the source visits). -/
def onsetCountIdx (E : RealLib) (a : AudioAnalyzer) (i : ℕ) : ℕ :=
  match (windowStarts a).get? i with
  | some s => onsetCountAt E a s
  | none => 0

/-- The secondary ranking metric of get_sorted_windows: distance of the
window RMS from the ideal -24 dB. -/
def rmsDist (E : RealLib) (a : AudioAnalyzer) (i : ℕ) : ℚ :=
  |(rmsCurve E a).getD i 0 - (-24)|

/-- The comparison of np.lexsort((window_rms_scores, window_onset_counts)):
ascending onset count, ties by ascending RMS distance. -/
def sortKeyLeB (E : RealLib) (a : AudioAnalyzer) (i j : ℕ) : Bool :=
  decide (onsetCountIdx E a i < onsetCountIdx E a j) ||
    (decide (onsetCountIdx E a i = onsetCountIdx E a j) &&
      decide (rmsDist E a i ≤ rmsDist E a j))

/-- AudioAnalyzer.get_sorted_windows: indices sorted by the lexicographic
key (np.lexsort is a stable sort, as is insertion sort, and a stable sort is
uniquely determined by the comparison, so the two agree exactly), then
filtered by the keep mask, where a keep mask with no passing window is
replaced by the all-ones mask. -/
def getSortedWindows (E : RealLib) (a : AudioAnalyzer) (g : GateParams) : List ℕ :=
  let n := numWindows a
  let anyPass := (List.range n).any (rawKeep E a g)
  let eff : ℕ → Bool := if anyPass then rawKeep E a g else fun _ => true
  (List.insertionSort (fun i j => sortKeyLeB E a i j = true) (List.range n)).filter eff

/-- AudioAnalyzer.get_sample_range_for_window. -/
def getSampleRangeForWindow (a : AudioAnalyzer) (i : ℕ) : ℕ × ℕ :=
  (i * a.hopSamples, min (i * a.hopSamples + a.windowSizeSamples) a.sig.length)

-- ===========================================================================
-- Oracle draws for numpy randomness
-- ===========================================================================

/-- A stream of oracle values feeding the numpy random calls. -/
abbrev Draws : Type := List ℚ

/-- Take the next oracle value (0 when the stream is exhausted). -/
def drawNext : Draws → ℚ × Draws
  | [] => (0, [])
  | q :: t => (q, t)

/-- Reduce an oracle value to an index below n (n = 0 never occurs on the
paths where the value is used). -/
def drawNat (q : ℚ) (n : ℕ) : ℕ := if n = 0 then 0 else (pyInt q).toNat % n

/-- np.random.randint(lo, hi): a value in [lo, hi) chosen by the oracle;
hi <= lo raises in numpy and is excluded by the callers under study. -/
def pyRandint (q : ℚ) (lo hi : ℕ) : ℕ := if hi ≤ lo then lo else lo + drawNat q (hi - lo)

-- ===========================================================================
-- Consecutive stable runs and sample_from_stable_region
-- ===========================================================================

/-- Rising boundaries of the padded mask: indices i with not p[i] and
p[i+1], scanning adjacent pairs (np.where(diff == 1)). -/
def boundaryStartsAux : ℕ → List Bool → List ℕ
  | _, [] => []
  | _, [_] => []
  | i, x :: y :: t => (if !x && y then [i] else []) ++ boundaryStartsAux (i + 1) (y :: t)

/-- Falling boundaries of the padded mask: indices i with p[i] and not
p[i+1] (np.where(diff == -1)). -/
def boundaryEndsAux : ℕ → List Bool → List ℕ
  | _, [] => []
  | _, [_] => []
  | i, x :: y :: t => (if x && !y then [i] else []) ++ boundaryEndsAux (i + 1) (y :: t)

/-- The maximal runs of consecutive True windows as produced by the source:
pad the mask with False on both sides, diff, and zip the rising indices with
the falling indices (start inclusive, end exclusive, in mask indices). -/
def maskRuns (mask : List Bool) : List (ℕ × ℕ) :=
  let padded := false :: mask ++ [false]
  List.zip (boundaryStartsAux 0 padded) (boundaryEndsAux 0 padded)

/-- Single-pass accumulator computing the same run list (proof helper). -/
def runsAux : List Bool → ℕ → Option ℕ → List (ℕ × ℕ)
  | [], i, some s => [(s, i)]
  | [], _, none => []
  | true :: t, i, none => runsAux t (i + 1) (some i)
  | true :: t, i, some s => runsAux t (i + 1) (some s)
  | false :: t, i, some s => (s, i) :: runsAux t (i + 1) none
  | false :: t, i, none => runsAux t (i + 1) none

/-- Decision procedure for the existence of a run of at least k consecutive
True entries. -/
def hasTrueRun (mask : List Bool) (k : ℕ) : Bool :=
  (List.range (mask.length + 1)).any (fun i =>
    decide (i + k ≤ mask.length) && (List.range k).all (fun j => mask.getD (i + j) false))

/-- AudioAnalyzer.sample_from_stable_region with an explicit mask (the
callers under study always pass one; with no mask the source computes the
default-gate stability mask first).  Returns None when the mask has no True
entry or no run reaches min_stable_windows; else picks a run and a window by
oracle, and returns (start, min(start + int(duration * sr), len)).  The end
is an integer because Python keeps a negative duration negative. -/
def sampleFromStableRegion (a : AudioAnalyzer) (durationSec : ℚ)
    (minStableWindows : ℕ) (mask : List Bool) (d : Draws) :
    Option (ℕ × ℤ) × Draws :=
  if !mask.any id then (none, d)
  else
    let runs := maskRuns mask
    let qualified := runs.filter (fun p => decide (minStableWindows ≤ p.2 - p.1))
    if qualified.isEmpty then (none, d)
    else
      let q1 := (drawNext d).1
      let d1 := (drawNext d).2
      let chosen := qualified.getD (drawNat q1 qualified.length) (0, 0)
      let q2 := (drawNext d1).1
      let d2 := (drawNext d1).2
      let wIdx := pyRandint q2 chosen.1 chosen.2
      let start := wIdx * a.hopSamples
      let e := min ((start : ℤ) + pyInt (durationSec * a.sr)) (a.sig.length : ℤ)
      (some (start, e), d2)

-- ===========================================================================
-- C6: construction validation and the zero-hop range error
-- ===========================================================================

/-- C6 (amended): construction fails fast exactly for sample_rate <= 0,
window_size_sec <= 0 or hop_sec < 0; hop_sec = 0 is accepted (the check is
strict), and on a successfully constructed analyzer the windowed RMS
computation succeeds exactly when the derived hop in samples is nonzero (a
zero hop makes the Python range() raise ValueError, which happens in
particular for hop_sec = 0 whenever the window fits inside the buffer). -/
theorem analyzerInit_spec :
    (∀ (sig : List ℚ) (sr ws hop : ℚ),
      (analyzerInit sig sr ws hop).isOk = true ↔ (0 < sr ∧ 0 < ws ∧ 0 ≤ hop)) ∧
    (∀ (E : RealLib) (sig : List ℚ) (sr ws hop : ℚ) (a : AudioAnalyzer),
      analyzerInit sig sr ws hop = .ok a →
      ((computeRmsCurveE E a).isOk = true ↔ a.hopSamples ≠ 0)) := by
  constructor
  · intro sig sr ws hop
    unfold analyzerInit
    split
    · rename_i h
      simp only [Except.isOk, Except.toBool, Bool.false_eq_true, false_iff]
      intro hc
      exact absurd hc.1 (not_lt.mpr h)
    · split
      · rename_i h1 h
        simp only [Except.isOk, Except.toBool, Bool.false_eq_true, false_iff]
        intro hc
        exact absurd hc.2.1 (not_lt.mpr h)
      · split
        · rename_i h1 h2 h
          simp only [Except.isOk, Except.toBool, Bool.false_eq_true, false_iff]
          intro hc
          exact absurd hc.2.2 (not_le.mpr h)
        · rename_i h1 h2 h3
          push_neg at h1 h2 h3
          by_cases hcl : sig.length < (pyInt (ws * sr)).toNat <;>
            simp [Except.isOk, Except.toBool, hcl, h1, h2, h3]
  · intro E sig sr ws hop a _
    unfold computeRmsCurveE
    split
    · rename_i h
      simp [Except.isOk, Except.toBool, h]
    · rename_i h
      simp [Except.isOk, Except.toBool, h]

/-- C6 witness: a valid construction (sr 10, window 1 s, hop 0.5 s) succeeds
and its RMS curve computes without error. -/
theorem analyzerInit_spec_witness :
    (analyzerInit [(1:ℚ), 1] 10 1 (1/2)).isOk = true ∧
    (computeRmsCurveE EStd ⟨[(1:ℚ), 1], 10, 1, 1/2, 2, 2, []⟩).isOk = true :=
  ⟨(analyzerInit_spec.1 [(1:ℚ), 1] 10 1 (1/2)).mpr (by norm_num),
   (analyzerInit_spec.2 EStd [(1:ℚ), 1] 10 1 (1/2) ⟨[(1:ℚ), 1], 10, 1, 1/2, 2, 2, []⟩
      (by decide)).mpr (by decide)⟩

/-- C6 counterexample: hop_sec = 0 passes construction (the source only
rejects hop_sec < 0), so the claimed fail-fast on every non-positive hop is
false; the zero hop then makes the first windowed feature computation raise
(zero range step), contradicting the claim that computations on any
successfully constructed analyzer never raise. -/
theorem analyzerInit_counterexample :
    (analyzerInit (List.replicate 20 (1/2 : ℚ)) 10 1 0).isOk = true ∧
    (match analyzerInit (List.replicate 20 (1/2 : ℚ)) 10 1 0 with
      | .ok a => (computeRmsCurveE EStd a).isOk
      | .error _ => true) = false := by
  refine ⟨by decide, by decide⟩

-- ===========================================================================
-- C2: stability mask length and cache correctness
-- ===========================================================================

theorem rmsCurve_length (E : RealLib) (a : AudioAnalyzer) (hn : 1 ≤ numWindows a) :
    (rmsCurve E a).length = numWindows a := by
  have hne : windowStarts a ≠ [] := by
    unfold numWindows at hn
    exact List.ne_nil_of_length_pos hn
  unfold rmsCurve
  rw [if_neg (by simp [hne])]
  simp [numWindows]

theorem dcCurve_length (a : AudioAnalyzer) (hn : 1 ≤ numWindows a) :
    (dcCurve a).length = numWindows a := by
  have hne : windowStarts a ≠ [] := by
    unfold numWindows at hn
    exact List.ne_nil_of_length_pos hn
  unfold dcCurve
  rw [if_neg (by simp [hne])]
  simp [numWindows]

theorem crestCurve_length (E : RealLib) (a : AudioAnalyzer) (hn : 1 ≤ numWindows a) :
    (crestCurve E a).length = numWindows a := by
  have hne : windowStarts a ≠ [] := by
    unfold numWindows at hn
    exact List.ne_nil_of_length_pos hn
  unfold crestCurve
  rw [if_neg (by simp [hne])]
  simp [numWindows]

theorem centroidCurve_length (E : RealLib) (a : AudioAnalyzer) (hn : 1 ≤ numWindows a) :
    (centroidCurve E a).length = numWindows a := by
  have hne : windowStarts a ≠ [] := by
    unfold numWindows at hn
    exact List.ne_nil_of_length_pos hn
  unfold centroidCurve
  rw [if_neg (by simp [hne])]
  simp [numWindows]

theorem computeStableMask_length (E : RealLib) (a : AudioAnalyzer) (g : GateParams)
    (hn : 1 ≤ numWindows a) :
    (computeStableMask E a g).length = numWindows a := by
  have hrms := rmsCurve_length E a hn
  have hdc := dcCurve_length a hn
  have hcrest := crestCurve_length E a hn
  have hcen := centroidCurve_length E a hn
  rcases g with ⟨mo, rl, rh, md, mc, clo, chi⟩
  rcases clo with _ | lo <;> rcases chi with _ | hi <;>
    simp [computeStableMask, List.length_zipWith, List.length_map,
      hrms, hdc, hcrest, hcen]

theorem find?_cons_key {A : Type} (k k2 : GateKey) (v : A) (rest : List (GateKey × A)) :
    List.find? (fun kv => decide (kv.1 = k2)) ((k, v) :: rest) =
      if k = k2 then some (k, v) else List.find? (fun kv => decide (kv.1 = k2)) rest := by
  by_cases h : k = k2
  · rw [if_pos h]
    exact List.find?_cons_of_pos _ (decide_eq_true h)
  · rw [if_neg h]
    exact List.find?_cons_of_neg _ (by simpa using h)

/-- C2: on a freshly constructed analyzer with at least one analysis window,
get_stable_regions returns a mask whose length equals the window count;
calling again with identical parameters returns the cached mask, equal by
value, without changing the analyzer; the cache key determines the full gate
tuple (distinct parameter tuples get distinct keys); and computing a second,
different gate tuple in between does not overwrite the first entry: the
re-query of the first tuple still returns the first mask. -/
theorem getStableRegions_spec (E : RealLib) (a : AudioAnalyzer) (g g2 : GateParams)
    (hfresh : a.stabilityCache = []) (hn : 1 ≤ numWindows a) :
    ((getStableRegions E a g).1.length = numWindows a) ∧
    (getStableRegions E (getStableRegions E a g).2 g =
      ((getStableRegions E a g).1, (getStableRegions E a g).2)) ∧
    (gateKey a g = gateKey a g2 → g = g2) ∧
    ((getStableRegions E (getStableRegions E (getStableRegions E a g).2 g2).2 g).1 =
      (getStableRegions E a g).1) := by
  set m := computeStableMask E a g with hm
  set a1 : AudioAnalyzer := ⟨a.sig, a.sr, a.windowSizeSec, a.hopSec, a.windowSizeSamples,
    a.hopSamples, [(gateKey a g, m)]⟩ with ha1
  have h1 : getStableRegions E a g = (m, a1) := by
    unfold getStableRegions
    rw [hfresh]
    rfl
  have h2 : getStableRegions E a1 g = (m, a1) := by
    unfold getStableRegions
    dsimp only
    rw [find?_cons_key, if_pos (show gateKey a g = gateKey a1 g from rfl)]
    rfl
  refine ⟨?_, ?_, ?_, ?_⟩
  · rw [h1]
    exact computeStableMask_length E a g hn
  · rw [h1]
    simpa using h2
  · intro hk
    exact ((Prod.mk.injEq _ _ _ _).mp hk).1
  · rw [h1]
    simp only
    by_cases hkk : gateKey a1 g2 = gateKey a g
    · have h3 : getStableRegions E a1 g2 = (m, a1) := by
        unfold getStableRegions
        dsimp only
        rw [find?_cons_key, if_pos hkk.symm]
        rfl
      rw [h3]
      simp only
      rw [h2]
    · set m2 := computeStableMask E a1 g2 with hm2
      set a2 : AudioAnalyzer := ⟨a1.sig, a1.sr, a1.windowSizeSec, a1.hopSec,
        a1.windowSizeSamples, a1.hopSamples, [(gateKey a1 g2, m2), (gateKey a g, m)]⟩ with ha2
      have h3 : getStableRegions E a1 g2 = (m2, a2) := by
        unfold getStableRegions
        dsimp only
        rw [find?_cons_key, if_neg (fun hcon => hkk hcon.symm)]
        rfl
      rw [h3]
      simp only
      have h4 : getStableRegions E a2 g = (m, a2) := by
        unfold getStableRegions
        dsimp only
        rw [find?_cons_key,
          if_neg (fun hcon => hkk (hcon.trans (show gateKey a2 g = gateKey a g from rfl))),
          find?_cons_key, if_pos (show gateKey a g = gateKey a2 g from rfl)]
        rfl
      rw [h4]

/-- C2 witness: a two-window analyzer over a constant buffer; the mask has
length two, the second identical call returns the cached mask unchanged, and
an interleaved different gate tuple does not disturb the first entry. -/
theorem getStableRegions_spec_witness :
    ((getStableRegions EStd ⟨[(1:ℚ)/2, 1/2], 2, 1/2, 1/2, 1, 1, []⟩ defaultGates).1.length =
      numWindows ⟨[(1:ℚ)/2, 1/2], 2, 1/2, 1/2, 1, 1, []⟩) ∧
    (getStableRegions EStd
        (getStableRegions EStd ⟨[(1:ℚ)/2, 1/2], 2, 1/2, 1/2, 1, 1, []⟩ defaultGates).2
        defaultGates =
      ((getStableRegions EStd ⟨[(1:ℚ)/2, 1/2], 2, 1/2, 1/2, 1, 1, []⟩ defaultGates).1,
        (getStableRegions EStd ⟨[(1:ℚ)/2, 1/2], 2, 1/2, 1/2, 1, 1, []⟩ defaultGates).2)) :=
  ⟨(getStableRegions_spec EStd ⟨[(1:ℚ)/2, 1/2], 2, 1/2, 1/2, 1, 1, []⟩ defaultGates
      defaultGates rfl (by decide)).1,
   (getStableRegions_spec EStd ⟨[(1:ℚ)/2, 1/2], 2, 1/2, 1/2, 1, 1, []⟩ defaultGates
      defaultGates rfl (by decide)).2.1⟩

-- ===========================================================================
-- C7: get_sorted_windows ordering, gating and graceful degradation
-- ===========================================================================

theorem sortKeyLeB_total (E : RealLib) (a : AudioAnalyzer) :
    ∀ i j, sortKeyLeB E a i j = true ∨ sortKeyLeB E a j i = true := by
  intro i j
  unfold sortKeyLeB
  rcases lt_trichotomy (onsetCountIdx E a i) (onsetCountIdx E a j) with h | h | h
  · left; simp [h]
  · rcases le_total (rmsDist E a i) (rmsDist E a j) with h2 | h2
    · left; simp [h, h2]
    · right; simp [h.symm, h2]
  · right; simp [h]

theorem sortKeyLeB_trans (E : RealLib) (a : AudioAnalyzer) :
    ∀ i j k, sortKeyLeB E a i j = true → sortKeyLeB E a j k = true →
      sortKeyLeB E a i k = true := by
  intro i j k hij hjk
  unfold sortKeyLeB at *
  simp only [Bool.or_eq_true, Bool.and_eq_true, decide_eq_true_eq] at *
  rcases hij with h1 | ⟨h1e, h1d⟩ <;> rcases hjk with h2 | ⟨h2e, h2d⟩
  · left; omega
  · left; omega
  · left; omega
  · right; exact ⟨h1e.trans h2e, le_trans h1d h2d⟩

theorem getSortedWindows_eq (E : RealLib) (a : AudioAnalyzer) (g : GateParams) :
    getSortedWindows E a g =
      (List.insertionSort (fun i j => sortKeyLeB E a i j = true)
          (List.range (numWindows a))).filter
        (if (List.range (numWindows a)).any (rawKeep E a g) then rawKeep E a g
          else fun _ => true) := rfl

/-- C7: with at least one analysis window, get_sorted_windows returns a
non-empty index list ordered by the lexicographic key (ascending onset
count, ties broken by ascending distance of the window RMS from -24 dB);
when some window passes the RMS, DC, crest and centroid gates, exactly the
passing windows are returned; when none passes, all windows are ranked and
returned (a permutation of all window indices). -/
theorem getSortedWindows_spec (E : RealLib) (a : AudioAnalyzer) (g : GateParams)
    (hn : 1 ≤ numWindows a) :
    (getSortedWindows E a g ≠ []) ∧
    (List.Pairwise (fun i j => sortKeyLeB E a i j = true) (getSortedWindows E a g)) ∧
    ((∃ i, i < numWindows a ∧ rawKeep E a g i = true) →
      (∀ i ∈ getSortedWindows E a g, rawKeep E a g i = true) ∧
      (∀ i, i < numWindows a → rawKeep E a g i = true → i ∈ getSortedWindows E a g)) ∧
    ((¬ ∃ i, i < numWindows a ∧ rawKeep E a g i = true) →
      List.Perm (getSortedWindows E a g) (List.range (numWindows a))) := by
  haveI : IsTotal ℕ (fun i j => sortKeyLeB E a i j = true) := ⟨sortKeyLeB_total E a⟩
  haveI : IsTrans ℕ (fun i j => sortKeyLeB E a i j = true) := ⟨sortKeyLeB_trans E a⟩
  have hsorted : List.Sorted (fun i j => sortKeyLeB E a i j = true)
      (List.insertionSort (fun i j => sortKeyLeB E a i j = true)
        (List.range (numWindows a))) :=
    List.sorted_insertionSort _ _
  have hperm0 : List.Perm (List.insertionSort (fun i j => sortKeyLeB E a i j = true)
      (List.range (numWindows a))) (List.range (numWindows a)) :=
    List.perm_insertionSort _ _
  have hexists : (List.range (numWindows a)).any (rawKeep E a g) = true ↔
      ∃ i, i < numWindows a ∧ rawKeep E a g i = true := by
    simp [List.any_eq_true, List.mem_range]
  by_cases hp : (List.range (numWindows a)).any (rawKeep E a g) = true
  · have heff : getSortedWindows E a g =
        (List.insertionSort (fun i j => sortKeyLeB E a i j = true)
          (List.range (numWindows a))).filter (rawKeep E a g) := by
      rw [getSortedWindows_eq, if_pos hp]
    have hperm : List.Perm (getSortedWindows E a g)
        ((List.range (numWindows a)).filter (rawKeep E a g)) := by
      rw [heff]
      exact hperm0.filter _
    refine ⟨?_, ?_, ?_, ?_⟩
    · intro hnil
      rcases hexists.mp hp with ⟨i, hi, hki⟩
      have : i ∈ (List.range (numWindows a)).filter (rawKeep E a g) :=
        List.mem_filter.mpr ⟨List.mem_range.mpr hi, hki⟩
      rw [← hperm.mem_iff] at this
      rw [hnil] at this
      cases this
    · rw [heff]
      exact hsorted.sublist (List.filter_sublist _)
    · intro _
      constructor
      · intro i hi
        rw [heff] at hi
        exact (List.mem_filter.mp hi).2
      · intro i hi hki
        rw [hperm.mem_iff]
        exact List.mem_filter.mpr ⟨List.mem_range.mpr hi, hki⟩
    · intro hno
      exact absurd (hexists.mp hp) hno
  · have heff : getSortedWindows E a g =
        (List.insertionSort (fun i j => sortKeyLeB E a i j = true)
          (List.range (numWindows a))).filter (fun _ => true) := by
      rw [getSortedWindows_eq, if_neg hp]
    have hall : getSortedWindows E a g =
        List.insertionSort (fun i j => sortKeyLeB E a i j = true)
          (List.range (numWindows a)) := by
      rw [heff, List.filter_true]
    refine ⟨?_, ?_, ?_, ?_⟩
    · intro hnil
      rw [hall] at hnil
      have := hperm0.length_eq
      rw [hnil] at this
      simp at this
      omega
    · rw [hall]
      exact hsorted
    · intro hex
      exact absurd (hexists.mpr hex) hp
    · intro _
      rw [hall]
      exact hperm0

/-- C7 witness: a two-window analyzer over a constant buffer returns a
non-empty ranked list. -/
theorem getSortedWindows_spec_witness :
    getSortedWindows EStd ⟨[(1:ℚ)/2, 1/2], 2, 1/2, 1/2, 1, 1, []⟩ defaultGates ≠ [] :=
  (getSortedWindows_spec EStd ⟨[(1:ℚ)/2, 1/2], 2, 1/2, 1/2, 1, 1, []⟩ defaultGates
    (by decide)).1

-- ===========================================================================
-- C5: consecutive runs and sample_from_stable_region
-- ===========================================================================

theorem boundary_zip_spec (mask : List Bool) : ∀ (i : ℕ),
    (List.zip (boundaryStartsAux i (false :: mask ++ [false]))
      (boundaryEndsAux i (false :: mask ++ [false])) = runsAux mask i none) ∧
    (∀ s, List.zip (s :: boundaryStartsAux i (true :: mask ++ [false]))
      (boundaryEndsAux i (true :: mask ++ [false])) = runsAux mask i (some s)) := by
  induction mask with
  | nil =>
    intro i
    constructor
    · rfl
    · intro s
      rfl
  | cons b t ih =>
    intro i
    cases b
    · constructor
      · simp only [List.cons_append, boundaryStartsAux, boundaryEndsAux, Bool.not_false,
          Bool.false_and, Bool.and_false, if_false, List.nil_append, runsAux]
        exact (ih (i + 1)).1
      · intro s
        simp only [List.cons_append, boundaryStartsAux, boundaryEndsAux, Bool.not_false,
          Bool.not_true, Bool.true_and, Bool.false_and, Bool.and_false, if_false, if_true,
          List.nil_append, List.singleton_append, List.zip_cons_cons, runsAux]
        rw [← (ih (i + 1)).1]
        rfl
    · constructor
      · simp only [List.cons_append, boundaryStartsAux, boundaryEndsAux, Bool.not_false,
          Bool.not_true, Bool.true_and, Bool.false_and, Bool.and_false, Bool.and_true,
          if_false, if_true, List.nil_append, List.singleton_append, runsAux]
        exact (ih (i + 1)).2 i
      · intro s
        simp only [List.cons_append, boundaryStartsAux, boundaryEndsAux, Bool.not_true,
          Bool.false_and, Bool.and_false, Bool.true_and, Bool.and_true, if_false,
          List.nil_append, runsAux]
        exact (ih (i + 1)).2 s

theorem maskRuns_eq_runsAux (mask : List Bool) : maskRuns mask = runsAux mask 0 none :=
  (boundary_zip_spec mask 0).1

theorem runsAux_sound :
    ∀ (mask : List Bool) (i : ℕ) (cur : Option ℕ) (s e : ℕ),
      (∀ st, cur = some st → st < i) →
      (s, e) ∈ runsAux mask i cur →
      (i ≤ s ∨ ∃ st, cur = some st ∧ s = st) ∧ s < e ∧ e ≤ i + mask.length ∧
        ∀ j, i ≤ j → j < e → s ≤ j → mask.getD (j - i) false = true := by
  intro mask
  induction mask with
  | nil =>
    intro i cur s e hcur hmem
    rcases cur with _ | st
    · cases hmem
    · rcases List.mem_singleton.mp hmem with h
      injection h with h1 h2
      subst h1; subst h2
      refine ⟨Or.inr ⟨s, rfl, rfl⟩, hcur s rfl, by simp, ?_⟩
      intro j hj1 hj2 _
      omega
  | cons b t ih =>
    intro i cur s e hcur hmem
    cases b
    · rcases cur with _ | st
      · have h := ih (i + 1) none s e (fun st hst => Option.noConfusion hst) hmem
        have hs : i + 1 ≤ s := by
          rcases h.1 with h1 | ⟨st, hst, _⟩
          · exact h1
          · exact Option.noConfusion hst
        refine ⟨Or.inl (by omega), h.2.1,
          by have := h.2.2.1; simp only [List.length_cons]; omega, ?_⟩
        intro j hj1 hj2 hj3
        have hji : i + 1 ≤ j := by omega
        have := h.2.2.2 j hji hj2 hj3
        rw [show j - i = (j - (i + 1)) + 1 by omega, List.getD_cons_succ]
        exact this
      · rcases List.mem_cons.mp hmem with h | h
        · injection h with h1 h2
          subst h1; subst h2
          refine ⟨Or.inr ⟨s, rfl, rfl⟩, hcur s rfl, by simp, ?_⟩
          intro j hj1 hj2 _
          omega
        · have hh := ih (i + 1) none s e (fun st2 hst => Option.noConfusion hst) h
          have hs : i + 1 ≤ s := by
            rcases hh.1 with h1 | ⟨st2, hst, _⟩
            · exact h1
            · exact Option.noConfusion hst
          refine ⟨Or.inl (by omega), hh.2.1,
            by have := hh.2.2.1; simp only [List.length_cons]; omega, ?_⟩
          intro j hj1 hj2 hj3
          have hji : i + 1 ≤ j := by omega
          have := hh.2.2.2 j hji hj2 hj3
          rw [show j - i = (j - (i + 1)) + 1 by omega, List.getD_cons_succ]
          exact this
    · rcases cur with _ | st
      · have hh := ih (i + 1) (some i) s e
          (by intro st2 hst; injection hst with hst; omega) hmem
        have hs : i ≤ s := by
          rcases hh.1 with h1 | ⟨st2, hst, hse⟩
          · omega
          · injection hst with hst
            omega
        refine ⟨Or.inl hs, hh.2.1,
          by have := hh.2.2.1; simp only [List.length_cons]; omega, ?_⟩
        intro j hj1 hj2 hj3
        by_cases hji : j = i
        · subst hji
          simp
        · have hji2 : i + 1 ≤ j := by omega
          have := hh.2.2.2 j hji2 hj2 hj3
          rw [show j - i = (j - (i + 1)) + 1 by omega, List.getD_cons_succ]
          exact this
      · have hh := ih (i + 1) (some st) s e
          (by intro st2 hst; injection hst with hst; have := hcur st rfl; omega) hmem
        have hstart : i ≤ s ∨ ∃ st2, some st = some st2 ∧ s = st2 := by
          rcases hh.1 with h1 | ⟨st2, hst, hse⟩
          · left; omega
          · right
            exact ⟨st2, hst, hse⟩
        refine ⟨hstart, hh.2.1,
          by have := hh.2.2.1; simp only [List.length_cons]; omega, ?_⟩
        intro j hj1 hj2 hj3
        by_cases hji : j = i
        · subst hji
          simp
        · have hji2 : i + 1 ≤ j := by omega
          have := hh.2.2.2 j hji2 hj2 hj3
          rw [show j - i = (j - (i + 1)) + 1 by omega, List.getD_cons_succ]
          exact this

/-- The pending run handed to runsAux as `some st` is closed as the first
element of the result, and its end lies beyond any prefix of leading True
entries of the remaining mask. -/
theorem runsAux_head_pending :
    ∀ (mask : List Bool) (i st c : ℕ),
      c ≤ mask.length →
      (∀ m, m < c → mask.getD m false = true) →
      ∃ e tail, runsAux mask i (some st) = (st, e) :: tail ∧ i + c ≤ e := by
  intro mask
  induction mask with
  | nil =>
    intro i st c hc _
    simp only [List.length_nil, Nat.le_zero] at hc
    subst hc
    exact ⟨i, [], rfl, by omega⟩
  | cons b t ih =>
    intro i st c hc hblock
    cases b
    · have hc0 : c = 0 := by
        by_contra hne
        have h0 := hblock 0 (by omega)
        simp at h0
      subst hc0
      exact ⟨i, runsAux t (i + 1) none, rfl, by omega⟩
    · have hcl : c - 1 ≤ t.length := by
        simp only [List.length_cons] at hc
        omega
      have hbl : ∀ m, m < c - 1 → t.getD m false = true := by
        intro m hm
        have := hblock (m + 1) (by omega)
        simpa using this
      obtain ⟨e, tail, heq, hle⟩ := ih (i + 1) st (c - 1) hcl hbl
      exact ⟨e, tail, heq, by omega⟩

/-- Completeness of the run extraction: any block of c consecutive True
entries is covered by some extracted run of length at least c. -/
theorem runsAux_complete :
    ∀ (mask : List Bool) (i : ℕ) (cur : Option ℕ) (j c : ℕ),
      (∀ st, cur = some st → st ≤ i) →
      j + c ≤ mask.length → 1 ≤ c →
      (∀ m, m < c → mask.getD (j + m) false = true) →
      ∃ p ∈ runsAux mask i cur, c ≤ p.2 - p.1 := by
  intro mask
  induction mask with
  | nil =>
    intro i cur j c _ hc h1 _
    simp only [List.length_nil] at hc
    omega
  | cons b t ih =>
    intro i cur j c hcur hc h1 hblock
    rcases Nat.eq_zero_or_pos j with hj | hj
    · subst hj
      have hb : b = true := by
        have := hblock 0 (by omega)
        simpa using this
      subst hb
      have hcl : c - 1 ≤ t.length := by
        simp only [List.length_cons] at hc
        omega
      have hbl : ∀ m, m < c - 1 → t.getD m false = true := by
        intro m hm
        have := hblock (m + 1) (by omega)
        simpa using this
      rcases cur with _ | st
      · obtain ⟨e, tail, heq, hle⟩ := runsAux_head_pending t (i + 1) i (c - 1) hcl hbl
        refine ⟨(i, e), ?_, ?_⟩
        · show (i, e) ∈ runsAux t (i + 1) (some i)
          rw [heq]
          exact List.mem_cons_self _ _
        · show c ≤ e - i
          omega
      · obtain ⟨e, tail, heq, hle⟩ := runsAux_head_pending t (i + 1) st (c - 1) hcl hbl
        have hst : st ≤ i := hcur st rfl
        refine ⟨(st, e), ?_, ?_⟩
        · show (st, e) ∈ runsAux t (i + 1) (some st)
          rw [heq]
          exact List.mem_cons_self _ _
        · show c ≤ e - st
          omega
    · have hcl : (j - 1) + c ≤ t.length := by
        simp only [List.length_cons] at hc
        omega
      have hbl : ∀ m, m < c → t.getD (j - 1 + m) false = true := by
        intro m hm
        have := hblock m hm
        rw [show j + m = (j - 1 + m) + 1 by omega] at this
        simpa using this
      cases b
      · rcases cur with _ | st
        · exact ih (i + 1) none (j - 1) c (fun st2 h => Option.noConfusion h) hcl h1 hbl
        · obtain ⟨p, hp, hlen⟩ :=
            ih (i + 1) none (j - 1) c (fun st2 h => Option.noConfusion h) hcl h1 hbl
          exact ⟨p, List.mem_cons_of_mem _ hp, hlen⟩
      · rcases cur with _ | st
        · exact ih (i + 1) (some i) (j - 1) c
            (by intro st2 h2; injection h2 with h2; omega) hcl h1 hbl
        · exact ih (i + 1) (some st) (j - 1) c
            (by intro st2 h2; injection h2 with h2; have := hcur st rfl; omega) hcl h1 hbl

/-- hasTrueRun decides exactly the existence of an extracted run of length
at least k. -/
theorem hasTrueRun_iff (mask : List Bool) (k : ℕ) (hk : 1 ≤ k) :
    hasTrueRun mask k = true ↔ ∃ p ∈ maskRuns mask, k ≤ p.2 - p.1 := by
  rw [maskRuns_eq_runsAux]
  constructor
  · intro h
    simp only [hasTrueRun, List.any_eq_true, List.mem_range, Bool.and_eq_true,
      decide_eq_true_eq, List.all_eq_true] at h
    obtain ⟨i, _, hik, hall⟩ := h
    exact runsAux_complete mask 0 none i k (fun st h2 => Option.noConfusion h2) hik hk
      (fun m hm => hall m hm)
  · rintro ⟨p, hp, hlen⟩
    obtain ⟨s, e⟩ := p
    dsimp only at hlen
    have hs := runsAux_sound mask 0 none s e (fun st h2 => Option.noConfusion h2) hp
    have h12 := hs.2.1
    have hle := hs.2.2.1
    simp only [hasTrueRun, List.any_eq_true, List.mem_range, Bool.and_eq_true,
      decide_eq_true_eq, List.all_eq_true]
    refine ⟨s, by omega, by omega, ?_⟩
    intro j hjk
    have := hs.2.2.2 (s + j) (by omega) (by omega) (by omega)
    simpa using this

/-- A mask with no True entry has no run of length at least one. -/
theorem hasTrueRun_eq_false_of_no_true (mask : List Bool) (k : ℕ) (hk : 1 ≤ k)
    (h : mask.any id = false) : hasTrueRun mask k = false := by
  by_contra hcon
  rw [Bool.not_eq_false] at hcon
  obtain ⟨p, hp, _⟩ := (hasTrueRun_iff mask k hk).mp hcon
  rw [maskRuns_eq_runsAux] at hp
  have hs := runsAux_sound mask 0 none p.1 p.2 (fun st hst => Option.noConfusion hst) hp
  have hi : p.1 < mask.length := by
    have := hs.2.1
    have := hs.2.2.1
    omega
  have h0 : mask.getD p.1 false = true := by
    have := hs.2.2.2 p.1 (by omega) hs.2.1 (by omega)
    simpa using this
  rw [List.getD_eq_getElem?_getD, List.getElem?_eq_getElem hi] at h0
  have hany : mask.any id = true :=
    List.any_eq_true.mpr ⟨mask[p.1], List.getElem_mem hi, by simpa using h0⟩
  rw [h] at hany
  exact Bool.noConfusion hany

/-- The oracle index reduction stays below its bound. -/
theorem drawNat_lt (q : ℚ) (n : ℕ) (h : n ≠ 0) : drawNat q n < n := by
  unfold drawNat
  rw [if_neg h]
  exact Nat.mod_lt _ (Nat.pos_of_ne_zero h)

/-- np.random.randint(lo, hi) with lo < hi lands in [lo, hi). -/
theorem pyRandint_mem (q : ℚ) (lo hi : ℕ) (h : lo < hi) :
    lo ≤ pyRandint q lo hi ∧ pyRandint q lo hi < hi := by
  unfold pyRandint
  rw [if_neg (by omega)]
  have := drawNat_lt q (hi - lo) (by omega)
  omega

/-- getD at an in-range index is a member of the list. -/
theorem getD_mem_of_lt {α : Type} (l : List α) (n : ℕ) (d : α) (h : n < l.length) :
    l.getD n d ∈ l := by
  rw [List.getD_eq_getElem?_getD, List.getElem?_eq_getElem h]
  exact List.getElem_mem h

/-- Every analysis-window index maps to a start offset strictly inside the
buffer, as long as the window size is at least one sample. -/
theorem windowStart_lt_len (a : AudioAnalyzer) (idx : ℕ)
    (hW : 1 ≤ a.windowSizeSamples) (h : idx < numWindows a) :
    idx * a.hopSamples < a.sig.length := by
  unfold numWindows windowStarts pyRangeNat at h
  by_cases hH : a.hopSamples = 0
  · rw [if_pos hH] at h
    simp at h
  · rw [if_neg hH] at h
    rw [List.length_map, List.length_range] at h
    have hH1 : 1 ≤ a.hopSamples := Nat.pos_of_ne_zero hH
    have h1 : idx + 1 ≤
        (((a.sig.length : ℤ) - (a.windowSizeSamples : ℤ) + 1).toNat + a.hopSamples - 1) /
          a.hopSamples := h
    have h2 : (idx + 1) * a.hopSamples ≤
        ((((a.sig.length : ℤ) - (a.windowSizeSamples : ℤ) + 1).toNat + a.hopSamples - 1) /
          a.hopSamples) * a.hopSamples := Nat.mul_le_mul h1 (le_refl a.hopSamples)
    have h3 := Nat.div_mul_le_self
      (((a.sig.length : ℤ) - (a.windowSizeSamples : ℤ) + 1).toNat + a.hopSamples - 1)
      a.hopSamples
    have h4 : (idx + 1) * a.hopSamples = idx * a.hopSamples + a.hopSamples := by ring
    omega

/-- The None result of sample_from_stable_region characterises exactly the
absence of a qualifying run. -/
theorem sfsr_none_iff (a : AudioAnalyzer) (dur : ℚ) (k : ℕ) (mask : List Bool)
    (d : Draws) (hk : 1 ≤ k) :
    (sampleFromStableRegion a dur k mask d).1 = none ↔ hasTrueRun mask k = false := by
  unfold sampleFromStableRegion
  by_cases hany : mask.any id = true
  · simp only [hany, Bool.not_true, Bool.false_eq_true, if_false]
    by_cases hq : ((maskRuns mask).filter (fun p => decide (k ≤ p.2 - p.1))) = []
    · simp only [hq, List.isEmpty_nil, if_true]
      constructor
      · intro _
        by_contra hcon
        rw [Bool.not_eq_false] at hcon
        obtain ⟨p, hp, hlen⟩ := (hasTrueRun_iff mask k hk).mp hcon
        have hmem : p ∈ (maskRuns mask).filter (fun p => decide (k ≤ p.2 - p.1)) :=
          List.mem_filter.mpr ⟨hp, by simpa using hlen⟩
        rw [hq] at hmem
        cases hmem
      · intro _
        trivial
    · have hne : ((maskRuns mask).filter (fun p => decide (k ≤ p.2 - p.1))).isEmpty
          = false := by
        rw [Bool.eq_false_iff]
        intro hcontra
        exact hq (List.isEmpty_iff.mp hcontra)
      simp only [hne, Bool.false_eq_true, if_false]
      have htrue : hasTrueRun mask k = true := by
        obtain ⟨p, hp⟩ := List.exists_mem_of_ne_nil _ hq
        have hpf := List.mem_filter.mp hp
        exact (hasTrueRun_iff mask k hk).mpr ⟨p, hpf.1, by simpa using hpf.2⟩
      constructor
      · intro hcontra
        exact Option.noConfusion hcontra
      · intro hfalse
        rw [htrue] at hfalse
        exact Bool.noConfusion hfalse
  · rw [Bool.not_eq_true] at hany
    simp only [hany, Bool.not_false, if_true]
    simpa using hasTrueRun_eq_false_of_no_true mask k hk hany

/-- A Some result of sample_from_stable_region is a genuine sample range:
start strictly before end, end within the buffer. -/
theorem sfsr_some_bounds (a : AudioAnalyzer) (dur : ℚ) (k : ℕ) (mask : List Bool)
    (d : Draws) (hdur : 1 ≤ pyInt (dur * a.sr))
    (hW : 1 ≤ a.windowSizeSamples) (hmask : mask.length = numWindows a) :
    ∀ s e, (sampleFromStableRegion a dur k mask d).1 = some (s, e) →
      (s : ℤ) < e ∧ e ≤ (a.sig.length : ℤ) := by
  intro s e h
  unfold sampleFromStableRegion at h
  by_cases hany : mask.any id = true
  · simp only [hany, Bool.not_true, Bool.false_eq_true, if_false] at h
    set F := (maskRuns mask).filter (fun p => decide (k ≤ p.2 - p.1)) with hF
    by_cases hq : F = []
    · simp only [hq, List.isEmpty_nil, if_true] at h
      exact Option.noConfusion h
    · have hne : F.isEmpty = false := by
        rw [Bool.eq_false_iff]
        intro hcontra
        exact hq (List.isEmpty_iff.mp hcontra)
      simp only [hne, Bool.false_eq_true, if_false, Option.some.injEq, Prod.mk.injEq] at h
      obtain ⟨h1, h2⟩ := h
      subst h1
      subst h2
      set chosen := F.getD (drawNat (drawNext d).1 F.length) (0, 0) with hchosen
      set wIdx := pyRandint (drawNext ((drawNext d).2)).1 chosen.1 chosen.2 with hwIdx
      have hlenpos : F.length ≠ 0 := fun h0 => hq (List.length_eq_zero.mp h0)
      have hcmem : chosen ∈ F := by
        rw [hchosen]
        exact getD_mem_of_lt _ _ _ (drawNat_lt _ _ hlenpos)
      have hpf := List.mem_filter.mp hcmem
      have hsound := runsAux_sound mask 0 none chosen.1 chosen.2
        (fun st hst => Option.noConfusion hst)
        (by rw [← maskRuns_eq_runsAux]; exact hpf.1)
      have h12 : chosen.1 < chosen.2 := hsound.2.1
      have hemask : chosen.2 ≤ mask.length := by
        have := hsound.2.2.1
        omega
      have hwlt : wIdx < chosen.2 := by
        rw [hwIdx]
        exact (pyRandint_mem _ chosen.1 chosen.2 h12).2
      have hstart : wIdx * a.hopSamples < a.sig.length :=
        windowStart_lt_len a wIdx hW (by omega)
      refine ⟨?_, min_le_right _ _⟩
      rw [lt_min_iff]
      refine ⟨by omega, ?_⟩
      exact_mod_cast hstart
  · rw [Bool.not_eq_true] at hany
    simp only [hany, Bool.not_false, if_true] at h
    exact Option.noConfusion h

/-- C5: sample_from_stable_region returns None exactly when the stability
mask has no run of at least min_stable_windows consecutive stable windows
(no exception is raised on that path); every Some result is a pair
(start_sample, end_sample) with 0 <= start_sample < end_sample <= buffer
length, and start_sample = 0 is a valid success value, realised by the
witness on an all-true mask. -/
theorem sampleFromStableRegion_spec (a : AudioAnalyzer) (dur : ℚ) (k : ℕ)
    (mask : List Bool) (d : Draws)
    (hk : 1 ≤ k) (hdur : 1 ≤ pyInt (dur * a.sr))
    (hW : 1 ≤ a.windowSizeSamples) (hmask : mask.length = numWindows a) :
    ((sampleFromStableRegion a dur k mask d).1 = none ↔ hasTrueRun mask k = false) ∧
    (∀ s e, (sampleFromStableRegion a dur k mask d).1 = some (s, e) →
      (s : ℤ) < e ∧ e ≤ (a.sig.length : ℤ)) :=
  ⟨sfsr_none_iff a dur k mask d hk, sfsr_some_bounds a dur k mask d hdur hW hmask⟩

/-- C5 witness: a 5 s constant buffer at 10 Hz sample rate with 1.0 s
windows and 0.5 s hop yields 9 analysis windows; on the all-true mask with
min_stable_windows = 2 and duration 1.0 s the sampler succeeds with
start_sample = 0 (some (0, 10)), and the theorem applies at this input. -/
theorem sampleFromStableRegion_spec_witness :
    (1 ≤ 2 ∧ 1 ≤ pyInt ((1 : ℚ) * (10 : ℚ)) ∧ 1 ≤ 10 ∧
      (List.replicate 9 true).length =
        numWindows ⟨List.replicate 50 ((1 : ℚ)/2), 10, 1, 1/2, 10, 5, []⟩) ∧
    (sampleFromStableRegion ⟨List.replicate 50 ((1 : ℚ)/2), 10, 1, 1/2, 10, 5, []⟩ 1 2
        (List.replicate 9 true) [0, 0]).1 = some (0, 10) ∧
    ((sampleFromStableRegion ⟨List.replicate 50 ((1 : ℚ)/2), 10, 1, 1/2, 10, 5, []⟩ 1 2
        (List.replicate 9 true) [0, 0]).1 = none ↔
      hasTrueRun (List.replicate 9 true) 2 = false) :=
  ⟨by decide, by decide,
    (sampleFromStableRegion_spec ⟨List.replicate 50 ((1 : ℚ)/2), 10, 1, 1/2, 10, 5, []⟩
      1 2 (List.replicate 9 true) [0, 0] (by decide) (by decide) (by decide)
      (by decide)).1⟩

-- ===========================================================================
-- granular_maker: grain quality, extraction, cloud assembly
-- ===========================================================================

/-- granular_maker.analyze_grain_quality with the default checks enabled:
multiplicative penalties for silence, DC offset, clipping and crest, and
envelope skew (only for grains longer than 10 samples), clamped to [0, 1];
grains shorter than 2 samples score 0.1. -/
def analyzeGrainQuality (E : RealLib) (grain : List ℚ) : ℚ :=
  if grain.length < 2 then 1/10
  else
    let rms := rmsEnergy E grain
    let s1 : ℚ := if rms < 1/200 then 1/10 else if rms < 1/100 then 3/10 else 1
    let meanAbs := |meanQ grain|
    let s2 : ℚ := if 3/20 < meanAbs then 1/2 else if 2/25 < meanAbs then 3/4 else 1
    let peak := peakAbs grain
    let s3 : ℚ := if 49/50 < peak then 3/10 else if 19/20 < peak then 1/2 else 1
    let crest := peak / (rms + 1/1000000)
    let s4 : ℚ := if 15 < crest then 2/5 else if 10 < crest then 3/5 else 1
    let s5 : ℚ :=
      if 10 < grain.length then
        let fh := ((grain.take (grain.length / 2)).map (fun x => x * x)).sum
        let sh := ((grain.drop (grain.length / 2)).map (fun x => x * x)).sum
        let tot := fh + sh
        if 0 < tot then
          let skew := |fh - sh| / tot
          if 17/20 < skew then 3/10 else if 7/10 < skew then 3/5 else 1
        else 1
      else 1
    max 0 (min 1 (s1 * s2 * s3 * s4 * s5))

/-- The sliced and zero-padded grain audio[start : start + gl] of the
extraction loop (np.pad with trailing zeros up to the drawn length). -/
def grainSlice (audio : List ℚ) (start gl : ℕ) : List ℚ :=
  let grain := (audio.drop start).take gl
  grain ++ List.replicate (gl - grain.length) 0

/-- The Hann-windowed grain appended to the pool. -/
def windowedGrain (E : RealLib) (audio : List ℚ) (start gl : ℕ) : List ℚ :=
  List.zipWith (fun x y => x * y) (grainSlice audio start gl) (E.hannF gl)

/-- The too-short branch of extract_grains (max_start = 0): extract
num_grains grains from the head of the buffer, padding and windowing each,
with no quality filtering. -/
def shortExtract (E : RealLib) (audio : List ℚ) (minS maxS : ℕ) :
    ℕ → Draws → List (List ℚ) × Draws
  | 0, d => ([], d)
  | n + 1, d =>
    let gl := pyRandint (drawNext d).1 minS (maxS + 1)
    let rest := shortExtract E audio minS maxS n (drawNext d).2
    (windowedGrain E audio 0 gl :: rest.1, rest.2)

/-- The top-20 percent sorted-windows fallback of the extraction loop: pick
one of the best windows, clamp the grain length to the window span, then
offset randomly inside the window; with no ranked windows fall back to a
uniform start.  Returns (start, grain_length, remaining draws). -/
def sortedFallback (E : RealLib) (audio : List ℚ) (a : AudioAnalyzer)
    (g : GateParams) (gl maxStart : ℕ) (d : Draws) : ℕ × ℕ × Draws :=
  let sw := getSortedWindows E a g
  if sw.isEmpty then
    (pyRandint (drawNext d).1 0 (max 1 (maxStart + 1 - gl)), gl, (drawNext d).2)
  else
    let best := sw.take (max 1 (sw.length / 5))
    let q1 := (drawNext d).1
    let d1 := (drawNext d).2
    let wIdx := best.getD (drawNat q1 best.length) 0
    let pr := getSampleRangeForWindow a wIdx
    let maxLen := pr.2 - pr.1
    let gl2 := min gl maxLen
    let offset := pyRandint (drawNext d1).1 0 (max 1 ((maxLen - gl2) + 1))
    (min (pr.1 + offset) (audio.length - gl2), gl2, (drawNext d1).2)

/-- The per-attempt start/length selection of the extraction loop: the
stable-mask branch (with the strict sampler and its soft fallback), the
sorted-windows branch, and the uniform-random branch, following the source
branch structure.  Returns (start, grain_length, remaining draws). -/
def selStart (E : RealLib) (audio : List ℚ) (sr : ℚ) (useQualityFilter : Bool)
    (analyzer : Option AudioAnalyzer) (g : GateParams) (minStableW : ℕ)
    (mask : Option (List Bool)) (gl maxStart : ℕ) (d : Draws) : ℕ × ℕ × Draws :=
  match mask, analyzer with
  | some m, some a =>
    if useQualityFilter && m.any id then
      let r := sampleFromStableRegion a ((gl : ℚ) / sr) minStableW m d
      match r.1 with
      | some se => (se.1, gl, r.2)
      | none => sortedFallback E audio a g gl maxStart r.2
    else if useQualityFilter then sortedFallback E audio a g gl maxStart d
    else (pyRandint (drawNext d).1 0 (max 1 (maxStart + 1 - gl)), gl, (drawNext d).2)
  | none, some a =>
    if useQualityFilter then sortedFallback E audio a g gl maxStart d
    else (pyRandint (drawNext d).1 0 (max 1 (maxStart + 1 - gl)), gl, (drawNext d).2)
  | _, none =>
    (pyRandint (drawNext d).1 0 (max 1 (maxStart + 1 - gl)), gl, (drawNext d).2)

/-- The extraction while-loop of extract_grains: fuel counts the remaining
attempts (max_attempts); each attempt draws a grain length, selects a start,
slices, pads and quality-checks the grain, and appends the windowed grain on
acceptance. -/
def extractLoop (E : RealLib) (audio : List ℚ) (minS maxS num : ℕ) (sr : ℚ)
    (useQualityFilter : Bool) (minQuality : ℚ) (analyzer : Option AudioAnalyzer)
    (g : GateParams) (minStableW : ℕ) (mask : Option (List Bool)) (maxStart : ℕ) :
    ℕ → List (List ℚ) → Draws → List (List ℚ) × Draws
  | 0, acc, d => (acc, d)
  | fuel + 1, acc, d =>
    if num ≤ acc.length then (acc, d)
    else
      let gl0 := pyRandint (drawNext d).1 minS (maxS + 1)
      let sel := selStart E audio sr useQualityFilter analyzer g minStableW mask gl0
        maxStart (drawNext d).2
      if useQualityFilter &&
          decide (analyzeGrainQuality E (grainSlice audio sel.1 sel.2.1) < minQuality) then
        extractLoop E audio minS maxS num sr useQualityFilter minQuality analyzer g
          minStableW mask maxStart fuel acc sel.2.2
      else
        extractLoop E audio minS maxS num sr useQualityFilter minQuality analyzer g
          minStableW mask maxStart fuel (acc ++ [windowedGrain E audio sel.1 sel.2.1])
          sel.2.2

/-- granular_maker.extract_grains: derive the grain length bounds in
samples, take the short branch when the buffer is no longer than the
maximum grain length, otherwise prepare the stability mask (when filtering
with an analyzer; a zero hop makes the mask computation raise ValueError
through range() unless the mask is already cached) and run the extraction
loop with max_attempts = num_grains * 10 when filtering, num_grains
otherwise. -/
def extractGrains (E : RealLib) (audio : List ℚ) (minMs maxMs : ℚ) (num : ℕ)
    (sr : ℚ) (useQualityFilter : Bool) (minQuality : ℚ)
    (analyzer : Option AudioAnalyzer) (g : GateParams) (minStableW : ℕ)
    (d : Draws) : Except PyErr (List (List ℚ) × Draws) :=
  let minS := (pyInt (minMs * sr / 1000)).toNat
  let maxS := (pyInt (maxMs * sr / 1000)).toNat
  let maxStart := audio.length - maxS
  if maxStart = 0 then .ok (shortExtract E audio minS maxS num d)
  else
    match analyzer with
    | some a =>
      if useQualityFilter then
        if (a.stabilityCache.find? (fun kv => decide (kv.1 = gateKey a g))).isNone
            && decide (a.hopSamples = 0) then .error .valueError
        else
          let pr := getStableRegions E a g
          .ok (extractLoop E audio minS maxS num sr useQualityFilter minQuality
            (some pr.2) g minStableW (some pr.1) maxStart (num * 10) [] d)
      else
        .ok (extractLoop E audio minS maxS num sr useQualityFilter minQuality
          (some a) g minStableW none maxStart num [] d)
    | none =>
      .ok (extractLoop E audio minS maxS num sr useQualityFilter minQuality none g
        minStableW none maxStart (if useQualityFilter then num * 10 else num) [] d)

/-- np.random.uniform(lo, hi) via the oracle: the drawn value clamped into
[lo, hi], covering exactly the support of the distribution. -/
def pyUniform (q lo hi : ℚ) : ℚ := max lo (min hi q)

/-- granular_maker.apply_pitch_shift_grain: unchanged when both shift bounds
are zero or the grain is shorter than 256 samples; otherwise draw a shift,
return unchanged on a zero draw, else resample at the rate 2^(shift/12)
clamped into [1/2, 2]. -/
def applyPitchShiftGrain (E : RealLib) (grain : List ℚ) (sr minShift maxShift : ℚ)
    (d : Draws) : List ℚ × Draws :=
  if minShift = 0 ∧ maxShift = 0 then (grain, d)
  else if grain.length < 256 then (grain, d)
  else
    let shift := pyUniform (drawNext d).1 minShift maxShift
    let d1 := (drawNext d).2
    if shift = 0 then (grain, d1)
    else (E.resampleF grain (max (1/2) (min 2 (E.pow2Q (shift / 12)))), d1)

/-- The pitch-shift pass of create_cloud over the grain pool, threading the
oracle draws. -/
def cloudPitchAll (E : RealLib) (sr minShift maxShift : ℚ) :
    List (List ℚ) → Draws → List (List ℚ) × Draws
  | [], d => ([], d)
  | g :: t, d =>
    let r := applyPitchShiftGrain E g sr minShift maxShift d
    let rest := cloudPitchAll E sr minShift maxShift t r.2
    (r.1 :: rest.1, rest.2)

/-- Swap two positions of a grain list. -/
def listSwap (l : List (List ℚ)) (i j : ℕ) : List (List ℚ) :=
  (l.set i (l.getD j [])).set j (l.getD i [])

/-- The Fisher-Yates sweep of np.random.shuffle over the given descending
index list. -/
def shuffleAux : List ℕ → List (List ℚ) → Draws → List (List ℚ) × Draws
  | [], l, d => (l, d)
  | i :: t, l, d =>
    shuffleAux t (listSwap l i (drawNat (drawNext d).1 (i + 1))) (drawNext d).2

/-- np.random.shuffle: for i in reversed(range(1, n)) swap position i with a
drawn position j in [0, i]. -/
def pyShuffle (l : List (List ℚ)) (d : Draws) : List (List ℚ) × Draws :=
  shuffleAux (((List.range (l.length - 1)).map (fun k => k + 1)).reverse) l d

/-- The pre-analysis configuration slice of create_cloud's config dict,
with the source defaults. -/
structure CloudConfig : Type where
  preAnalysisEnabled : Bool
  analysisWindowSec : ℚ
  analysisHopSec : ℚ
  qualityThreshold : ℚ
  maxDcOffset : ℚ
  maxCrest : ℚ
  maxOnsetRate : ℚ
  minRmsDb : ℚ
  maxRmsDb : ℚ
  minStableWindows : ℕ
  centroidLow : Option ℚ
  centroidHigh : Option ℚ
deriving DecidableEq

/-- The source defaults of the pre-analysis configuration. -/
def defaultCloudConfig : CloudConfig :=
  ⟨true, 1, 1/2, 2/5, 1/10, 10, 3, -40, -10, 2, none, none⟩

/-- The gate tuple create_cloud forwards from its configuration. -/
def cloudGates (c : CloudConfig) : GateParams :=
  ⟨c.maxOnsetRate, c.minRmsDb, c.maxRmsDb, c.maxDcOffset, c.maxCrest,
    c.centroidLow, c.centroidHigh⟩

/-- The grain-pool stage of create_cloud: build the analyzer when
pre-analysis is enabled (construction may raise), extract with quality
filtering, and on an empty pool re-extract with the filter and analyzer
disabled and the extract_grains defaults. -/
def cloudPool (E : RealLib) (audio : List ℚ) (sr minMs maxMs : ℚ) (num : ℕ)
    (cfg : CloudConfig) (d : Draws) : Except PyErr (List (List ℚ) × Draws) :=
  let anaE : Except PyErr (Option AudioAnalyzer) :=
    if cfg.preAnalysisEnabled then
      match analyzerInit audio sr cfg.analysisWindowSec cfg.analysisHopSec with
      | .ok a => .ok (some a)
      | .error e => .error e
    else .ok none
  match anaE with
  | .error e => .error e
  | .ok ana =>
    match extractGrains E audio minMs maxMs num sr true cfg.qualityThreshold ana
        (cloudGates cfg) cfg.minStableWindows d with
    | .error e => .error e
    | .ok pr =>
      if pr.1.isEmpty then
        extractGrains E audio minMs maxMs num sr false (2/5) none defaultGates 2 pr.2
      else .ok pr

/-- Overlap-add of one grain into the cloud buffer at the given position,
truncating at the buffer end (cloud[pos:end] += grain[:end-pos]). -/
def addInto (c : List ℚ) (pos : ℕ) (g : List ℚ) : List ℚ :=
  c.take pos ++ List.zipWith (fun x y => x + y) (c.drop pos) g ++ c.drop (pos + g.length)

/-- The cycling placement loop of create_cloud: place grain k mod pool-size
at position k * hop for every k with k * hop < len(cloud). -/
def assembleCloud (c : List ℚ) (grains : List (List ℚ)) (hop : ℕ) : List ℚ :=
  (List.range ((c.length + hop - 1) / hop)).foldl
    (fun acc k => addInto acc (k * hop) (grains.getD (k % grains.length) [])) c

/-- The rendering tail of create_cloud: the cycling placement (a zero grain
pool with a nonzero target raises ZeroDivisionError at grains[idx %
len(grains)]), the peak normalization to 0.95, and the guarded edge fades. -/
def cloudRender (grains : List (List ℚ)) (n hop fade : ℕ) : Except PyErr (List ℚ) :=
  if grains.isEmpty && decide (0 < n) then .error .zeroDivision
  else
    let cloud := assembleCloud (List.replicate n 0) grains hop
    let peak := peakAbs cloud
    let normed := if 0 < peak then cloud.map (fun x => x / peak * (19/20)) else cloud
    applyFadeOut (applyFadeIn normed fade) fade

/-- granular_maker.create_cloud: pool extraction with fallback, pitch
shifts, shuffle, cycling placement into int(duration * sr) zeros (np.zeros
raises on a negative count), peak normalization, and the fades guarded by
min(int(0.01 * sr), len // 4). -/
def createCloud (E : RealLib) (audio : List ℚ) (sr minMs maxMs : ℚ) (num : ℕ)
    (durationSec shiftMin shiftMax overlap : ℚ) (cfg : CloudConfig) (d : Draws) :
    Except PyErr (List ℚ) :=
  match cloudPool E audio sr minMs maxMs num cfg d with
  | .error e => .error e
  | .ok pr =>
    let pitched := cloudPitchAll E sr shiftMin shiftMax pr.1 pr.2
    let shuffled := pyShuffle pitched.1 pitched.2
    if pyInt (durationSec * sr) < 0 then .error .valueError
    else
      let n := (pyInt (durationSec * sr)).toNat
      let gls := pyInt ((minMs + maxMs) / 2 * sr / 1000)
      let hop := max 1 (pyInt ((gls : ℚ) * (1 - overlap))).toNat
      let fade := min (pyInt (sr / 100)).toNat (n / 4)
      cloudRender shuffled.1 n hop fade

/-- The padded grain slice always has exactly the drawn length. -/
theorem grainSlice_length (audio : List ℚ) (start gl : ℕ) :
    (grainSlice audio start gl).length = gl := by
  simp only [grainSlice, List.length_append, List.length_replicate, List.length_take,
    List.length_drop]
  omega

/-- The windowed grain always has exactly the drawn length. -/
theorem windowedGrain_length (E : RealLib) (audio : List ℚ) (start gl : ℕ) :
    (windowedGrain E audio start gl).length = gl := by
  simp only [windowedGrain, List.length_zipWith, grainSlice_length, E.hann_length,
    min_self]

/-- np.random.randint never returns below its lower bound. -/
theorem pyRandint_ge (q : ℚ) (lo hi : ℕ) : lo ≤ pyRandint q lo hi := by
  unfold pyRandint
  split <;> omega

/-- The short branch produces exactly num grains, each of the drawn length
within the requested bounds. -/
theorem shortExtract_spec (E : RealLib) (audio : List ℚ) (minS maxS : ℕ) :
    ∀ (num : ℕ) (d : Draws),
      ((shortExtract E audio minS maxS num d).1).length = num ∧
      ∀ gr ∈ (shortExtract E audio minS maxS num d).1,
        minS ≤ gr.length ∧ (minS ≤ maxS → gr.length ≤ maxS) := by
  intro num
  induction num with
  | zero =>
    intro d
    exact ⟨rfl, by intro gr hgr; cases hgr⟩
  | succ n ih =>
    intro d
    constructor
    · simp only [shortExtract, List.length_cons]
      rw [(ih (drawNext d).2).1]
    · intro gr hgr
      simp only [shortExtract] at hgr
      rcases List.mem_cons.mp hgr with h | h
      · subst h
        rw [windowedGrain_length]
        refine ⟨pyRandint_ge _ _ _, ?_⟩
        intro hms
        have := (pyRandint_mem (drawNext d).1 minS (maxS + 1) (by omega)).2
        omega
      · exact (ih (drawNext d).2).2 gr h

/-- With no analyzer (hence no stability mask), every grain the extraction
loop appends has the uniformly drawn length: at least the minimum, and at
most the maximum whenever the bounds are ordered. -/
theorem extractLoop_none_bounds (E : RealLib) (audio : List ℚ) (minS maxS num : ℕ)
    (sr : ℚ) (f : Bool) (q : ℚ) (g : GateParams) (w maxStart : ℕ) :
    ∀ (fuel : ℕ) (acc : List (List ℚ)) (d : Draws),
      ∀ gr ∈ (extractLoop E audio minS maxS num sr f q none g w none maxStart
          fuel acc d).1,
        gr ∈ acc ∨ (minS ≤ gr.length ∧ (minS ≤ maxS → gr.length ≤ maxS)) := by
  intro fuel
  induction fuel with
  | zero =>
    intro acc d gr hgr
    simp only [extractLoop] at hgr
    exact Or.inl hgr
  | succ fuel ih =>
    intro acc d gr hgr
    simp only [extractLoop, selStart] at hgr
    split at hgr
    · exact Or.inl hgr
    · split at hgr
      · exact ih acc _ gr hgr
      · rcases ih _ _ gr hgr with h | h
        · rcases List.mem_append.mp h with h2 | h2
          · exact Or.inl h2
          · right
            rw [List.mem_singleton.mp h2, windowedGrain_length]
            refine ⟨pyRandint_ge _ _ _, ?_⟩
            intro hms
            have := (pyRandint_mem (drawNext d).1 minS (maxS + 1) (by omega)).2
            omega
        · exact Or.inr h

/-- With the quality filter off, every attempt of the extraction loop
appends a grain, so the pool grows to num (given enough fuel) and stops
there. -/
theorem extractLoop_noFilter_count (E : RealLib) (audio : List ℚ) (minS maxS num : ℕ)
    (sr : ℚ) (q : ℚ) (ana : Option AudioAnalyzer) (g : GateParams) (w maxStart : ℕ) :
    ∀ (fuel : ℕ) (acc : List (List ℚ)) (d : Draws),
      ((extractLoop E audio minS maxS num sr false q ana g w none maxStart
          fuel acc d).1).length = max acc.length (min num (acc.length + fuel)) := by
  intro fuel
  induction fuel with
  | zero =>
    intro acc d
    simp only [extractLoop]
    omega
  | succ fuel ih =>
    intro acc d
    simp only [extractLoop, Bool.false_and, Bool.false_eq_true, if_false]
    split
    · rename_i h
      dsimp only
      omega
    · rename_i h
      rw [ih]
      simp only [List.length_append, List.length_singleton]
      omega

/-- C9: extract_grains with use_quality_filter=False and no analyzer never
rejects an attempt: on every non-empty buffer with ordered grain-length
bounds it returns a pool of exactly num_grains grains, each of length
between the minimum and maximum requested grain length in samples. -/
theorem extractGrains_noFilter_spec (E : RealLib) (audio : List ℚ) (minMs maxMs : ℚ)
    (num : ℕ) (sr : ℚ) (q : ℚ) (g : GateParams) (w : ℕ) (d : Draws)
    (hne : audio ≠ []) (hnum : 1 ≤ num)
    (hms : (pyInt (minMs * sr / 1000)).toNat ≤ (pyInt (maxMs * sr / 1000)).toNat) :
    ∃ grains d2,
      extractGrains E audio minMs maxMs num sr false q none g w d = .ok (grains, d2) ∧
      grains.length = num ∧
      ∀ gr ∈ grains, (pyInt (minMs * sr / 1000)).toNat ≤ gr.length ∧
        gr.length ≤ (pyInt (maxMs * sr / 1000)).toNat := by
  unfold extractGrains
  dsimp only
  split
  · refine ⟨_, _, rfl, ?_, ?_⟩
    · exact (shortExtract_spec E audio _ _ num d).1
    · intro gr hgr
      have h := (shortExtract_spec E audio _ _ num d).2 gr hgr
      exact ⟨h.1, h.2 hms⟩
  · refine ⟨_, _, rfl, ?_, ?_⟩
    · rw [extractLoop_noFilter_count]
      simp only [List.length_nil, Bool.false_eq_true, if_false]
      omega
    · intro gr hgr
      rcases extractLoop_none_bounds E audio _ _ num sr false q g w _ _ [] d gr hgr
        with h | h
      · cases h
      · exact ⟨h.1, h.2 hms⟩

/-- C9 witness: three samples at 1/2, 10 ms grains at 100 Hz (1 sample),
two grains requested with the filter off: the theorem applies and the call
indeed returns exactly two one-sample grains. -/
theorem extractGrains_noFilter_spec_witness :
    ([(1 : ℚ)/2, 1/2, 1/2] ≠ [] ∧ 1 ≤ 2 ∧
      (pyInt ((10 : ℚ) * 100 / 1000)).toNat ≤ (pyInt ((10 : ℚ) * 100 / 1000)).toNat) ∧
    (∃ grains d2,
      extractGrains EStd [(1 : ℚ)/2, 1/2, 1/2] 10 10 2 100 false (2/5) none
        defaultGates 2 [0, 0, 0, 0] = .ok (grains, d2) ∧
      grains.length = 2 ∧
      ∀ gr ∈ grains, (pyInt ((10 : ℚ) * 100 / 1000)).toNat ≤ gr.length ∧
        gr.length ≤ (pyInt ((10 : ℚ) * 100 / 1000)).toNat) :=
  ⟨by decide,
    extractGrains_noFilter_spec EStd [(1 : ℚ)/2, 1/2, 1/2] 10 10 2 100 (2/5)
      defaultGates 2 [0, 0, 0, 0] (by decide) (by decide) (by decide)⟩

/-- C4 (amended): on every buffer at least as long as the maximum requested
grain length, extract_grains respects the minimum grain length when no
analyzer is supplied (with or without the quality filter); with an analyzer,
the sorted-windows fallback clamps the grain length to the window span,
which can fall below the requested minimum (see the counterexample). -/
theorem extractGrains_minLength_spec (E : RealLib) (audio : List ℚ) (minMs maxMs : ℚ)
    (num : ℕ) (sr : ℚ) (f : Bool) (q : ℚ) (g : GateParams) (w : ℕ) (d : Draws)
    (hlen : (pyInt (maxMs * sr / 1000)).toNat ≤ audio.length) :
    ∃ grains d2,
      extractGrains E audio minMs maxMs num sr f q none g w d = .ok (grains, d2) ∧
      ∀ gr ∈ grains, (pyInt (minMs * sr / 1000)).toNat ≤ gr.length := by
  unfold extractGrains
  dsimp only
  split
  · refine ⟨_, _, rfl, ?_⟩
    intro gr hgr
    exact ((shortExtract_spec E audio _ _ num d).2 gr hgr).1
  · refine ⟨_, _, rfl, ?_⟩
    intro gr hgr
    rcases extractLoop_none_bounds E audio _ _ num sr f q g w _ _ [] d gr hgr
      with h | h
    · cases h
    · exact h.1

/-- C4 witness: a 60 ms buffer at 1000 Hz with 50 ms grains (50 samples,
buffer 60 samples long) and no analyzer: every extracted grain is at least
50 samples, exercising the amended theorem at a concrete input. -/
theorem extractGrains_minLength_spec_witness :
    ((pyInt ((50 : ℚ) * 1000 / 1000)).toNat ≤ (List.replicate 60 ((1 : ℚ)/2)).length) ∧
    (∃ grains d2,
      extractGrains EStd (List.replicate 60 ((1 : ℚ)/2)) 50 50 1 1000 true (2/5) none
        defaultGates 2 [0, 0, 0] = .ok (grains, d2) ∧
      ∀ gr ∈ grains, (pyInt ((50 : ℚ) * 1000 / 1000)).toNat ≤ gr.length) :=
  ⟨by decide,
    extractGrains_minLength_spec EStd (List.replicate 60 ((1 : ℚ)/2)) 50 50 1 1000 true
      (2/5) defaultGates 2 [0, 0, 0] (by decide)⟩

/-- C4 counterexample: the same 60-sample buffer and 50-sample grain bounds,
but with an analyzer whose windows span only 10 samples: all windows fail
the DC gate, the sorted-windows fallback clamps the drawn 50-sample grain
to the 10-sample window span, and the returned pool holds a grain of length
10, below the requested minimum of 50, although the buffer is longer than
the maximum grain length. -/
theorem extractGrains_counterexample :
    extractGrains EStd (List.replicate 60 ((1 : ℚ)/2)) 50 50 1 1000 true (2/5)
      (some ⟨List.replicate 60 ((1 : ℚ)/2), 1000, 1/100, 1/100, 10, 10, []⟩)
      defaultGates 2 [0, 0, 0] = .ok ([List.replicate 10 ((1 : ℚ)/2)], []) ∧
    (List.replicate 10 ((1 : ℚ)/2)).length < (pyInt ((50 : ℚ) * 1000 / 1000)).toNat ∧
    (pyInt ((50 : ℚ) * 1000 / 1000)).toNat ≤ (List.replicate 60 ((1 : ℚ)/2)).length := by
  exact ⟨by decide, by decide, by decide⟩

/-- The pitch-shift pass preserves the pool size. -/
theorem cloudPitchAll_length (E : RealLib) (sr a b : ℚ) :
    ∀ (l : List (List ℚ)) (d : Draws),
      ((cloudPitchAll E sr a b l d).1).length = l.length := by
  intro l
  induction l with
  | nil =>
    intro d
    rfl
  | cons g t ih =>
    intro d
    simp only [cloudPitchAll, List.length_cons]
    rw [ih]

/-- Swapping two positions preserves the pool size. -/
theorem listSwap_length (l : List (List ℚ)) (i j : ℕ) :
    (listSwap l i j).length = l.length := by
  simp [listSwap]

/-- The Fisher-Yates sweep preserves the pool size. -/
theorem shuffleAux_length : ∀ (ks : List ℕ) (l : List (List ℚ)) (d : Draws),
    ((shuffleAux ks l d).1).length = l.length := by
  intro ks
  induction ks with
  | nil =>
    intro l d
    rfl
  | cons i t ih =>
    intro l d
    simp only [shuffleAux]
    rw [ih, listSwap_length]

/-- np.random.shuffle preserves the pool size. -/
theorem pyShuffle_length (l : List (List ℚ)) (d : Draws) :
    ((pyShuffle l d).1).length = l.length := shuffleAux_length _ l d

/-- One overlap-add step preserves the cloud length. -/
theorem addInto_length (c : List ℚ) (pos : ℕ) (g : List ℚ) :
    (addInto c pos g).length = c.length := by
  simp only [addInto, List.length_append, List.length_take, List.length_zipWith,
    List.length_drop]
  omega

/-- Folding overlap-add steps preserves the cloud length. -/
theorem foldl_addInto_length (grains : List (List ℚ)) (hop : ℕ) :
    ∀ (ks : List ℕ) (c : List ℚ),
      ((ks.foldl
        (fun acc k => addInto acc (k * hop) (grains.getD (k % grains.length) []))
        c)).length = c.length := by
  intro ks
  induction ks with
  | nil =>
    intro c
    rfl
  | cons k t ih =>
    intro c
    rw [List.foldl_cons, ih, addInto_length]

/-- The cycling placement preserves the cloud length. -/
theorem assembleCloud_length (c : List ℚ) (grains : List (List ℚ)) (hop : ℕ) :
    (assembleCloud c grains hop).length = c.length :=
  foldl_addInto_length grains hop _ c

/-- apply_fade_in preserves the buffer length. -/
theorem applyFadeIn_length (sig : List ℚ) (fade : ℕ) :
    (applyFadeIn sig fade).length = sig.length := by
  unfold applyFadeIn
  dsimp only
  split <;> simp [List.length_zipWith, linspace_length] <;> omega

/-- apply_fade_out with a positive fade length never raises and preserves
the buffer length. -/
theorem applyFadeOut_ok (sig : List ℚ) (fade : ℕ) (hfade : 1 ≤ fade) :
    ∃ out, applyFadeOut sig fade = .ok out ∧ out.length = sig.length := by
  unfold applyFadeOut
  dsimp only
  by_cases hn : sig.length = 0
  · rw [if_neg (by omega)]
    refine ⟨_, rfl, ?_⟩
    have hc := lastSlice_length_le sig (if sig.length < fade then sig.length else fade)
    simp only [List.length_append, List.length_take, List.length_zipWith,
      linspace_length, inf_eq_min]
    omega
  · have hf : (if sig.length < fade then sig.length else fade) ≠ 0 := by
      split <;> omega
    rw [if_neg (by intro hc; exact hf hc.1)]
    refine ⟨_, rfl, ?_⟩
    have hle : (if sig.length < fade then sig.length else fade) ≤ sig.length := by
      split <;> omega
    have h1 : 1 ≤ (if sig.length < fade then sig.length else fade) := by omega
    have hl : (lastSlice sig (if sig.length < fade then sig.length else fade)).length
        = (if sig.length < fade then sig.length else fade) :=
      lastSlice_length _ _ hle h1
    simp only [List.length_append, List.length_take, List.length_zipWith, hl,
      linspace_length, inf_eq_min, min_self]
    omega

/-- The rendering tail of create_cloud on a non-empty pool with a positive
guarded fade always succeeds, with exactly the target number of samples. -/
theorem cloudRender_spec (grains : List (List ℚ)) (n hop fade : ℕ)
    (hne : grains ≠ []) (hfade : 1 ≤ fade) :
    ∃ out, cloudRender grains n hop fade = .ok out ∧ out.length = n := by
  unfold cloudRender
  have hge : grains.isEmpty = false := by
    rw [Bool.eq_false_iff]
    intro hc
    exact hne (List.isEmpty_iff.mp hc)
  simp only [hge, Bool.false_and, Bool.false_eq_true, if_false]
  have hnl : (assembleCloud (List.replicate n 0) grains hop).length = n := by
    rw [assembleCloud_length, List.length_replicate]
  obtain ⟨out, ho, hlen⟩ := applyFadeOut_ok
    (applyFadeIn
      (if 0 < peakAbs (assembleCloud (List.replicate n 0) grains hop) then
        (assembleCloud (List.replicate n 0) grains hop).map
          (fun x => x / peakAbs (assembleCloud (List.replicate n 0) grains hop) * (19/20))
      else assembleCloud (List.replicate n 0) grains hop) fade) fade hfade
  refine ⟨out, ho, ?_⟩
  rw [hlen, applyFadeIn_length]
  split <;> simp [hnl]

/-- The cloud configuration with pre-analysis disabled and the remaining
source defaults. -/
def cfgNoPre : CloudConfig := ⟨false, 1, 1/2, 2/5, 1/10, 10, 3, -40, -10, 2, none, none⟩

/-- C8 (amended): whenever the pool stage succeeds with a non-empty grain
pool and the guarded fade min(int(0.01*sr), n // 4) is positive (n =
int(duration * sr)), create_cloud returns a non-empty buffer of exactly n
samples, and the fade is bounded by a quarter of the output length; the
claimed nonzero peak does not hold in general: windowed grains can cancel
in the overlap-add, leaving an all-zero buffer (see the counterexample),
and with a zero guarded fade the fade-out step raises instead. -/
theorem createCloud_spec (E : RealLib) (audio : List ℚ) (sr minMs maxMs : ℚ)
    (num : ℕ) (dur sMin sMax overlap : ℚ) (cfg : CloudConfig) (d : Draws)
    (pr : List (List ℚ) × Draws)
    (hpool : cloudPool E audio sr minMs maxMs num cfg d = .ok pr)
    (hne : pr.1 ≠ [])
    (hfade : 1 ≤ min (pyInt (sr / 100)).toNat ((pyInt (dur * sr)).toNat / 4)) :
    ∃ out, createCloud E audio sr minMs maxMs num dur sMin sMax overlap cfg d
        = .ok out ∧
      out.length = (pyInt (dur * sr)).toNat ∧ out ≠ [] ∧
      min (pyInt (sr / 100)).toNat ((pyInt (dur * sr)).toNat / 4)
        ≤ (pyInt (dur * sr)).toNat / 4 := by
  unfold createCloud
  rw [hpool]
  dsimp only
  rw [if_neg (by omega)]
  have hsh : ((pyShuffle (cloudPitchAll E sr sMin sMax pr.1 pr.2).1
      (cloudPitchAll E sr sMin sMax pr.1 pr.2).2).1) ≠ [] := by
    intro hc
    have h1 := pyShuffle_length (cloudPitchAll E sr sMin sMax pr.1 pr.2).1
      (cloudPitchAll E sr sMin sMax pr.1 pr.2).2
    rw [hc, cloudPitchAll_length] at h1
    exact hne (List.length_eq_zero.mp h1.symm)
  obtain ⟨out, ho, hlen⟩ := cloudRender_spec _ _ _ _ hsh hfade
  refine ⟨out, ho, hlen, ?_, min_le_right _ _⟩
  intro hc
  rw [hc] at hlen
  simp only [List.length_nil] at hlen
  omega

/-- C8 witness: five samples at 0.3 and 100 Hz, one 30 ms grain (3
samples), overlap 0 and a 0.05 s target: the pool stage yields the single
windowed grain [0, 9/40, 9/40], the guarded fade is 1 = min(1, 5 // 4),
and the call returns the 5-sample buffer [0, 19/20, 19/20, 0, 19/20]. -/
theorem createCloud_spec_witness :
    (cloudPool EStd (List.replicate 5 ((3 : ℚ)/10)) 100 30 30 1 cfgNoPre [0, 0]
        = .ok ([[0, 9/40, 9/40]], []) ∧
      ([[0, (9 : ℚ)/40, 9/40]], ([] : Draws)).1 ≠ [] ∧
      1 ≤ min (pyInt ((100 : ℚ) / 100)).toNat ((pyInt ((1 : ℚ)/20 * 100)).toNat / 4)) ∧
    (∃ out, createCloud EStd (List.replicate 5 ((3 : ℚ)/10)) 100 30 30 1 ((1 : ℚ)/20)
        0 0 0 cfgNoPre [0, 0] = .ok out ∧
      out.length = (pyInt ((1 : ℚ)/20 * 100)).toNat ∧ out ≠ [] ∧
      min (pyInt ((100 : ℚ) / 100)).toNat ((pyInt ((1 : ℚ)/20 * 100)).toNat / 4)
        ≤ (pyInt ((1 : ℚ)/20 * 100)).toNat / 4) ∧
    createCloud EStd (List.replicate 5 ((3 : ℚ)/10)) 100 30 30 1 ((1 : ℚ)/20) 0 0 0
      cfgNoPre [0, 0] = .ok [0, 19/20, 19/20, 0, 19/20] :=
  ⟨by refine ⟨by decide, by decide, by decide⟩,
    createCloud_spec EStd (List.replicate 5 ((3 : ℚ)/10)) 100 30 30 1 ((1 : ℚ)/20) 0 0 0
      cfgNoPre [0, 0] ([[0, 9/40, 9/40]], []) (by decide) (by decide) (by decide),
    by decide⟩

/-- C8 counterexample: a non-silent 7-sample source at 100 Hz whose two
extracted 3-sample windowed grains are [0, 0, 9/40] and [0, -9/40, 0];
placed with hop 1 into a 5-sample target they cancel exactly, so
create_cloud succeeds with a valid non-empty pool yet returns the all-zero
buffer, whose peak is zero. -/
theorem createCloud_counterexample :
    createCloud EStd [(3 : ℚ)/10, -3/10, 0, 3/10, 3/10, 3/10, 3/10] 100 30 30 2
      ((1 : ℚ)/20) 0 0 1 cfgNoPre [0, 1, 0, 0, 1] = .ok (List.replicate 5 0) ∧
    peakAbs (List.replicate 5 (0 : ℚ)) = 0 ∧
    peakAbs [(3 : ℚ)/10, -3/10, 0, 3/10, 3/10, 3/10, 3/10] ≠ 0 ∧
    cloudPool EStd [(3 : ℚ)/10, -3/10, 0, 3/10, 3/10, 3/10, 3/10] 100 30 30 2 cfgNoPre
      [0, 1, 0, 0, 1] = .ok ([[0, 0, 9/40], [0, -9/40, 0]], [1]) ∧
    (pyInt ((1 : ℚ)/20 * 100)).toNat = 5 := by
  exact ⟨by decide, by decide, by decide, by decide, by decide⟩
